import Mathlib

/-!
Verification of the MOLA repository specification against its sources.

The development shallowly embeds three source files:

* `include/mola_metric_maps/DualVoxelPointCloud.h` — the dual-resolution
  voxel point-cloud map (DVPC).  The header only declares the class; the
  method bodies live in a translation unit that is not part of the visible
  sources, so the operational behaviour of the DVPC (insertion protocol,
  neighbor-link maintenance, NN query, likelihood, serialization) is
  modelled from the specification, while the inline members that are
  present in the header (`coord2idx`, `idx2coord`, the option defaults)
  are translated from the source.
* `include/mola-kernel/ExecutableBase.h` — `findService` is implemented
  inline in the header and is translated directly.
* `mola_input_paris_luco_dataset/src/ParisLucoDataset.cpp` — translated
  directly; the few member defaults declared in its (absent) header are
  modelled from the specification.

Geometry is modelled with exact rationals (the source uses `float`);
voxel indices with unbounded integers (the source uses `int32_t`; no
claim depends on wrap-around).
-/

namespace Mola

/-- A 3-D point (models `mrpt::math::TPoint3Df`, with exact rationals). -/
structure Pt where
  x : ℚ
  y : ℚ
  z : ℚ
deriving DecidableEq, Repr

/-- Squared Euclidean distance between two points. -/
def distSq (p q : Pt) : ℚ :=
  (p.x - q.x) ^ 2 + (p.y - q.y) ^ 2 + (p.z - q.z) ^ 2

/-- A voxel index: three integer lattice coordinates (models `index3d_t`). -/
structure Index3D where
  ix : ℤ
  iy : ℤ
  iz : ℤ
deriving DecidableEq, Repr

/-- Chebyshev distance between two voxel indices. -/
def cheb (a b : Index3D) : ℤ :=
  max |a.ix - b.ix| (max |a.iy - b.iy| |a.iz - b.iz|)

/-- Voxel-map configuration parameters (the three ctor arguments of
`DualVoxelPointCloud`; defaults from the header). -/
structure Config where
  decimation_size : ℚ := 1/5
  max_nn_radius : ℚ := 3/5
  max_points_per_voxel : ℕ := 0
deriving DecidableEq, Repr

/-- `decimation_size_inv_` from the header: `1.0f / decimation_size_`. -/
def Config.decimation_size_inv (c : Config) : ℚ := 1 / c.decimation_size

/-- `max_nn_radius_sqr_` from the header: `max_nn_radius_ * max_nn_radius_`. -/
def Config.max_nn_radius_sqr (c : Config) : ℚ := c.max_nn_radius * c.max_nn_radius

/-- `nn_to_decim_ratio_` from the header comment: ceiling of
`nn_radius / decim_size`. -/
def Config.nn_to_decim_ratio (c : Config) : ℤ :=
  ⌈c.max_nn_radius / c.decimation_size⌉

/-- Valid configuration, per the spec: `decimation_size > 0` and
`max_nn_radius ≥ decimation_size`. -/
def Config.Valid (c : Config) : Prop :=
  0 < c.decimation_size ∧ c.decimation_size ≤ c.max_nn_radius

instance (c : Config) : Decidable c.Valid := by
  unfold Config.Valid; infer_instance

/-- `coord2idx` from the header: `mrpt::round(xyz * decimation_size_inv_)`
(rounding to nearest; the spec leaves the half-way convention
implementation-defined, the model uses round-half-up). -/
def Config.coord2idx (c : Config) (xyz : ℚ) : ℤ :=
  round (xyz * c.decimation_size_inv)

/-- `idx2coord` from the header: coordinate of the voxel center. -/
def Config.idx2coord (c : Config) (idx : ℤ) : ℚ := idx * c.decimation_size

/-- The voxel index of a point (apply `coord2idx` on each axis). -/
def Config.pt2idx (c : Config) (p : Pt) : Index3D :=
  ⟨c.coord2idx p.x, c.coord2idx p.y, c.coord2idx p.z⟩

/-- Offsets `-r … r` in increasing order (empty collapse to `[-r]` cannot
happen for `r ≥ 0`, the only case used). -/
def rangeOffsets (r : ℤ) : List ℤ :=
  (List.range (2 * r.toNat + 1)).map (fun (k : ℕ) => (k : ℤ) - r)

/-- Modelled from the spec: the neighborhood cube of a center index at
integer radius `r`, in lexicographic `(dx, dy, dz)` order; the
`(2r+1)^3` indices within Chebyshev distance `r`. -/
def neighborhoodCube (v : Index3D) (r : ℤ) : List Index3D :=
  (rangeOffsets r).flatMap fun dx =>
    (rangeOffsets r).flatMap fun dy =>
      (rangeOffsets r).map fun dz => ⟨v.ix + dx, v.iy + dy, v.iz + dz⟩

/-- Per-voxel payload (models `DualVoxelPointCloud::VoxelData`): the stored
points in insertion order, and the neighbor links.  A link entry
`(n, true)` models `Some(reference to the cell at n)` (the referenced
cell is recovered by lookup in the owning map, which the C++ reference
aliases), `(n, false)` models `None`. -/
structure VoxelData where
  points_ : List Pt
  neighbors_ : List (Index3D × Bool)
deriving DecidableEq, Repr

/-- Modelled from the spec (body of `VoxelData::insertPoint` is not in the
visible sources): append `p` unless the voxel is full; with
`max_points_per_voxel > 0` and `points.len == max_points_per_voxel` the
point is silently dropped. -/
def VoxelData.insertPoint (maxPts : ℕ) (vd : VoxelData) (p : Pt) : VoxelData :=
  if maxPts ≠ 0 ∧ vd.points_.length = maxPts then vd
  else { vd with points_ := vd.points_ ++ [p] }

/-- Association-list lookup by voxel index (models `unordered_map::find`). -/
def findCell : List (Index3D × VoxelData) → Index3D → Option VoxelData
  | [], _ => none
  | (k, vd) :: rest, i => if k = i then some vd else findCell rest i

/-- Replace the payload stored at index `i` (models writing through an
`unordered_map` iterator). -/
def updateCell : List (Index3D × VoxelData) → Index3D → VoxelData →
    List (Index3D × VoxelData)
  | [], _, _ => []
  | (k, c) :: rest, i, vd =>
      if k = i then (i, vd) :: updateCell rest i vd
      else (k, c) :: updateCell rest i vd

/-- Whether a cell exists at index `i`. -/
def containsCell (vs : List (Index3D × VoxelData)) (i : Index3D) : Bool :=
  (findCell vs i).isSome

/-- Association-list lookup among the neighbor links of one cell. -/
def lookupLink : List (Index3D × Bool) → Index3D → Option Bool
  | [], _ => none
  | (k, b) :: rest, i => if k = i then some b else lookupLink rest i

/-- Set the link entry for key `k` to `Some` (models
`neighbors_[k] = ref`, which inserts the key when absent). -/
def setLink : List (Index3D × Bool) → Index3D → List (Index3D × Bool)
  | [], k => [(k, true)]
  | (n, b) :: rest, k =>
      if n = k then (n, true) :: rest else (n, b) :: setLink rest k

/-- Likelihood options (defaults from the header:
`sigma_dist = 0.5`, `max_corr_distance = 1.0`, `decimation = 10`). -/
structure TLikelihoodOptions where
  sigma_dist : ℚ := 1/2
  max_corr_distance : ℚ := 1
  decimation : ℕ := 10
deriving DecidableEq, Repr

/-- Render options (defaults from the header; the colormap enumerator value
is opaque in the model). -/
structure TRenderOptions where
  point_size : ℚ := 1
  show_mean_only : Bool := true
  color_r : ℚ := 0
  color_g : ℚ := 0
  color_b : ℚ := 1
  colormap : ℕ := 0
  recolorizeByCoordinateIndex : ℕ := 2
deriving DecidableEq, Repr

/-- The dual-voxel point-cloud map (models `mola::DualVoxelPointCloud`):
configuration, the voxel container (association list; the C++
`unordered_map` order is implementation-defined), and the two option
blocks. -/
structure DVMap where
  cfg : Config := {}
  voxels_ : List (Index3D × VoxelData) := []
  likelihoodOptions : TLikelihoodOptions := {}
  renderOptions : TRenderOptions := {}
deriving DecidableEq, Repr

/-- A freshly constructed map with the given configuration. -/
def DVMap.empty (c : Config) : DVMap := { cfg := c }

/-- Update the links of every existing cell within Chebyshev distance `r`
of a newly created cell at `v` (the bidirectional half of
`internalUpdateNNs`): each such neighbor gets `neighbor_links[v] = Some`. -/
def refreshNeighbors (v : Index3D) (r : ℤ) :
    List (Index3D × VoxelData) → List (Index3D × VoxelData)
  | [] => []
  | (k, c) :: rest =>
      if cheb k v ≤ r then
        (k, ⟨c.points_, setLink c.neighbors_ v⟩) :: refreshNeighbors v r rest
      else (k, c) :: refreshNeighbors v r rest

/-- Modelled from the spec (bodies of `DualVoxelPointCloud::insertPoint`
and `internalUpdateNNs` are not in the visible sources): the insertion
protocol.  Compute the voxel index of `p`; if the cell exists, append the
point (subject to the per-voxel cap); otherwise create the cell, fill its
`neighbor_links` over the whole neighborhood cube (`Some` exactly for the
populated indices, the new cell itself included), update the reciprocal
links of every existing neighbor, then insert the point. -/
def DVMap.insertPoint (m : DVMap) (p : Pt) : DVMap :=
  let v := m.cfg.pt2idx p
  match findCell m.voxels_ v with
  | some cell =>
      { m with voxels_ :=
          updateCell m.voxels_ v (cell.insertPoint m.cfg.max_points_per_voxel p) }
  | none =>
      let r := m.cfg.nn_to_decim_ratio
      let newLinks := (neighborhoodCube v r).map fun n =>
        (n, n = v || containsCell m.voxels_ n)
      let newCell :=
        VoxelData.insertPoint m.cfg.max_points_per_voxel ⟨[], newLinks⟩ p
      { m with voxels_ := (v, newCell) :: refreshNeighbors v r m.voxels_ }

/-- Insert a sequence of points, one `insertPoint` call each, in order. -/
def DVMap.insertMany (m : DVMap) (ps : List Pt) : DVMap :=
  ps.foldl DVMap.insertPoint m

/-- The points stored in the cell at index `v` (empty when no cell). -/
def DVMap.cellPoints (m : DVMap) (v : Index3D) : List Pt :=
  (findCell m.voxels_ v).elim [] VoxelData.points_

/-- The `(point, squared distance to q)` candidates contributed by one
voxel cell, in stored order. -/
def cellCandidates (q : Pt) (vd : VoxelData) : List (Pt × ℚ) :=
  vd.points_.map fun p => (p, distSq p q)

/-- Modelled from the spec (body of `nn_find_nearest` is not in the
visible sources): the candidate stream of the NN query.  When the query
voxel exists, follow its `neighbor_links` (dereferencing each `Some` link
through the owning map); when it does not, synthesize a transient
neighborhood by scanning the cube directly against the main map. -/
def DVMap.nnCandidates (m : DVMap) (q : Pt) : List (Pt × ℚ) :=
  let vq := m.cfg.pt2idx q
  match findCell m.voxels_ vq with
  | some cell =>
      cell.neighbors_.flatMap fun e =>
        if e.2 then
          match findCell m.voxels_ e.1 with
          | some nb => cellCandidates q nb
          | none => []
        else []
  | none =>
      (neighborhoodCube vq m.cfg.nn_to_decim_ratio).flatMap fun n =>
        match findCell m.voxels_ n with
        | some nb => cellCandidates q nb
        | none => []

/-- Minimum-distance candidate, earliest-seen winning ties. -/
def pickBest : List (Pt × ℚ) → Option (Pt × ℚ)
  | [] => none
  | c :: rest =>
      match pickBest rest with
      | none => some c
      | some b => if b.2 < c.2 then some b else some c

/-- Modelled from the spec: `nn_find_nearest` — gather the neighborhood
candidates, discard those beyond `max_nn_radius_sqr`, return the minimum
(earliest-seen tie-break), or `none`. -/
def DVMap.nn_find_nearest (m : DVMap) (q : Pt) : Option (Pt × ℚ) :=
  pickBest ((m.nnCandidates q).filter fun c => c.2 ≤ m.cfg.max_nn_radius_sqr)

/-- Conceptual error kinds of the spec. -/
inductive MapError
  | InvalidConfig
  | EmptyVoxel
deriving DecidableEq, Repr

/-- Modelled from the spec (body of `setVoxelProperties` is not in the
visible sources): replace the configuration and clear all map contents;
fail with `InvalidConfig` when `decimation_size ≤ 0` or
`max_nn_radius < decimation_size`, leaving the map untouched. -/
def DVMap.setVoxelProperties (m : DVMap) (ds mr : ℚ) (mp : ℕ) :
    DVMap × Option MapError :=
  if ds ≤ 0 ∨ mr < ds then (m, some MapError.InvalidConfig)
  else ({ m with cfg := ⟨ds, mr, mp⟩, voxels_ := [] }, none)

/-- An SE(3) pose modelled as an affine transform: a 3×3 matrix block and
a translation (models `mrpt::poses::CPose3D` as used by the map: only its
action on points matters). -/
structure Pose where
  r11 : ℚ := 1
  r12 : ℚ := 0
  r13 : ℚ := 0
  r21 : ℚ := 0
  r22 : ℚ := 1
  r23 : ℚ := 0
  r31 : ℚ := 0
  r32 : ℚ := 0
  r33 : ℚ := 1
  tx : ℚ := 0
  ty : ℚ := 0
  tz : ℚ := 0
deriving DecidableEq, Repr

/-- Apply a pose to a point (compose the sensor point into the map frame). -/
def Pose.apply (T : Pose) (p : Pt) : Pt :=
  ⟨T.r11 * p.x + T.r12 * p.y + T.r13 * p.z + T.tx,
   T.r21 * p.x + T.r22 * p.y + T.r23 * p.z + T.ty,
   T.r31 * p.x + T.r32 * p.y + T.r33 * p.z + T.tz⟩

/-- The squared distance found by the NN query at `q`, or `clampSq` when
no neighbor is found. -/
def nnDistOr (m : DVMap) (q : Pt) (clampSq : ℚ) : ℚ :=
  ((m.nn_find_nearest q).map Prod.snd).getD clampSq

/-- The per-ray likelihood contribution at sensor-point index `i`:
transform by the pose, run the NN query (`clampSq` when no neighbor
found), clamp, scale by `-1/(2 sigma^2)`. -/
def likTerm (m : DVMap) (T : Pose) (pts : List Pt) (clampSq inv2s : ℚ)
    (i : ℕ) : ℚ :=
  -(min (nnDistOr m (T.apply (pts.getD i ⟨0, 0, 0⟩)) clampSq) clampSq) * inv2s

/-- The accumulation loop `for (i = 0; i < n; i += d) L += f(i)` of the
likelihood evaluation (the `0 < d` guard mirrors the termination
precondition of the C++ loop, which never terminates for `d = 0`). -/
def likLoop (f : ℕ → ℚ) (n d : ℕ) (i : ℕ) (acc : ℚ) : ℚ :=
  if _h : 0 < d ∧ i < n then likLoop f n d (i + d) (acc + f i) else acc
termination_by n - i
decreasing_by omega

/-- Modelled from the spec (body of
`internal_computeObservationLikelihoodPointCloud3D` is not in the visible
sources): the observation-likelihood evaluation over a sensor point cloud
with pose `T`; the unnormalized sum accumulated one decimated ray at a
time. -/
def DVMap.likelihoodPointCloud3D (m : DVMap) (T : Pose) (pts : List Pt) : ℚ :=
  let clampSq := m.likelihoodOptions.max_corr_distance ^ 2
  let inv2s := 1 / (2 * m.likelihoodOptions.sigma_dist ^ 2)
  likLoop (likTerm m T pts clampSq inv2s) pts.length
    m.likelihoodOptions.decimation 0 0

/-- One element of the persistent byte stream.  Field widths of the spec
(`u8`, `f32`, `f64`, `i32`, `u32`, `u64`, `bool`) are modelled as exact
token kinds; no claim depends on bit-level layout. -/
inductive Tok
  | byte (v : ℕ)
  | fl (v : ℚ)
  | int (v : ℤ)
  | cnt (v : ℕ)
  | flag (v : Bool)
deriving DecidableEq, Repr

/-- The serialization schema version byte. -/
def schemaVersion : ℕ := 0

/-- Modelled from the spec: one voxel record of the persistent stream —
`(ix, iy, iz)`, `point_count`, then the point triples. -/
def serializeVoxel (e : Index3D × VoxelData) : List Tok :=
  [Tok.int e.1.ix, Tok.int e.1.iy, Tok.int e.1.iz, Tok.cnt e.2.points_.length]
  ++ e.2.points_.flatMap fun p => [Tok.fl p.x, Tok.fl p.y, Tok.fl p.z]

/-- Modelled from the spec (the writer behind `DEFINE_SERIALIZABLE` is not
in the visible sources): schema version byte; configuration; likelihood
options; render options; voxel count, then the voxel records.  Neighbor
links are NOT written. -/
def DVMap.serialize (m : DVMap) : List Tok :=
  [Tok.byte schemaVersion,
   Tok.fl m.cfg.decimation_size, Tok.fl m.cfg.max_nn_radius,
   Tok.cnt m.cfg.max_points_per_voxel,
   Tok.fl m.likelihoodOptions.sigma_dist,
   Tok.fl m.likelihoodOptions.max_corr_distance,
   Tok.cnt m.likelihoodOptions.decimation,
   Tok.fl m.renderOptions.point_size, Tok.flag m.renderOptions.show_mean_only,
   Tok.fl m.renderOptions.color_r, Tok.fl m.renderOptions.color_g,
   Tok.fl m.renderOptions.color_b, Tok.byte m.renderOptions.colormap,
   Tok.byte m.renderOptions.recolorizeByCoordinateIndex,
   Tok.cnt m.voxels_.length]
  ++ m.voxels_.flatMap serializeVoxel

/-- Parse `k` point triples. -/
def parsePoints : ℕ → List Tok → Option (List Pt × List Tok)
  | 0, s => some ([], s)
  | k + 1, Tok.fl x :: Tok.fl y :: Tok.fl z :: s =>
      (parsePoints k s).map fun r => (⟨x, y, z⟩ :: r.1, r.2)
  | _ + 1, _ => none

/-- Parse `k` voxel records (indices and raw point lists). -/
def parseVoxels : ℕ → List Tok → Option (List (Index3D × List Pt) × List Tok)
  | 0, s => some ([], s)
  | k + 1, Tok.int ix :: Tok.int iy :: Tok.int iz :: Tok.cnt np :: s =>
      match parsePoints np s with
      | some (pts, s') =>
          (parseVoxels k s').map fun r => ((⟨ix, iy, iz⟩, pts) :: r.1, r.2)
      | none => none
  | _ + 1, _ => none

/-- Association-list lookup among parsed voxel records. -/
def lookupRec : List (Index3D × List Pt) → Index3D → Option (List Pt)
  | [], _ => none
  | (k, pts) :: rest, i => if k = i then some pts else lookupRec rest i

/-- Modelled from the spec: the post-load pass that rebuilds every cell's
`neighbor_links` (which are not stored in the stream): each cell receives
the full neighborhood cube, with `Some` exactly at the populated indices. -/
def rebuildCells (r : ℤ) (vs : List (Index3D × List Pt)) :
    List (Index3D × VoxelData) :=
  vs.map fun e =>
    (e.1, ⟨e.2, (neighborhoodCube e.1 r).map fun n =>
      (n, (lookupRec vs n).isSome)⟩)

/-- Modelled from the spec (the reader behind `DEFINE_SERIALIZABLE` is not
in the visible sources): parse the stream written by `DVMap.serialize`
(failing on an unknown schema version, malformed or truncated data, or
trailing garbage), then rebuild the neighbor links. -/
def DVMap.deserialize (s : List Tok) : Option DVMap :=
  match s with
  | Tok.byte ver :: Tok.fl ds :: Tok.fl mr :: Tok.cnt mp :: Tok.fl sg ::
    Tok.fl mc :: Tok.cnt dec :: Tok.fl psz :: Tok.flag smo :: Tok.fl cr ::
    Tok.fl cg :: Tok.fl cb :: Tok.byte cm :: Tok.byte rc :: Tok.cnt nv :: s' =>
      if ver = schemaVersion then
        match parseVoxels nv s' with
        | some (vs, []) =>
            let cfg : Config := ⟨ds, mr, mp⟩
            some { cfg := cfg,
                   voxels_ := rebuildCells cfg.nn_to_decim_ratio vs,
                   likelihoodOptions := ⟨sg, mc, dec⟩,
                   renderOptions := ⟨psz, smo, cr, cg, cb, cm, rc⟩ }
        | _ => none
      else none
  | _ => none

/-- A handle to a running module (models `ExecutableBase::Ptr` as returned
by the name server).  `castOk` functions over handles model which handles
a `dynamic_pointer_cast<Interface>` accepts. -/
structure ModuleHandle where
  id : ℕ
deriving DecidableEq, Repr

/-- The request string of the enumeration protocol in `findService`:
`"["s + std::to_string(idx)`. -/
def serviceRequest (idx : ℕ) : String := "[" ++ toString idx

/-- The state of an `ExecutableBase`: its name-server hook, a
`std::function` member that is empty (`none`) when unset. -/
structure ExecutableBase where
  nameServer_ : Option (String → Option ModuleHandle) := none

/-- `ExecutableBase()` — no constructor initializes `nameServer_`, so the
default-constructed `std::function` member is empty. -/
def ExecutableBase.construct : ExecutableBase := {}

/-- The enumeration loop of `findService` (from the header): query the
name server at indices `0, 1, 2, …`, stop at the first null handle, keep
(in order) the handles the dynamic cast accepts.  The C++ loop is
unbounded; `fuel` bounds the model, and theorems require enough of it to
reach the first null handle. -/
def findServiceAux (castOk : ModuleHandle → Bool)
    (ns : String → Option ModuleHandle) : ℕ → ℕ → List ModuleHandle
  | 0, _ => []
  | fuel + 1, idx =>
      match ns (serviceRequest idx) with
      | none => []
      | some m =>
          (if castOk m then [m] else []) ++ findServiceAux castOk ns fuel (idx + 1)

/-- `ExecutableBase::findService<Interface>()` (from the header): assert
that the name server is set (`none` models the `ASSERT_` failure), then
enumerate. -/
def ExecutableBase.findService (e : ExecutableBase)
    (castOk : ModuleHandle → Bool) (fuel : ℕ) : Option (List ModuleHandle) :=
  e.nameServer_.map fun ns => findServiceAux castOk ns fuel 0

/-- A scalar YAML value. -/
inductive YVal
  | str (v : String)
  | real (v : ℚ)
deriving DecidableEq, Repr

/-- The YAML configuration block passed to the dataset module: optionally
a `params` sub-block of key/value pairs. -/
structure YamlCfg where
  params : Option (List (String × YVal)) := none

/-- Lookup of a key in a YAML block. -/
def ylookup : List (String × YVal) → String → Option YVal
  | [], _ => none
  | (k, v) :: rest, key => if k = key then some v else ylookup rest key

/-- Lookup of a string-typed key. -/
def ylookupStr (c : List (String × YVal)) (key : String) : Option String :=
  match ylookup c key with
  | some (YVal.str v) => some v
  | _ => none

/-- Lookup of a real-typed key. -/
def ylookupReal (c : List (String × YVal)) (key : String) : Option ℚ :=
  match ylookup c key with
  | some (YVal.real v) => some v
  | _ => none

/-- `mrpt::system::pathJoin` on two components (up to trailing-slash
normalization for an empty second component). -/
def pathJoin (a b : String) : String :=
  if b.isEmpty then a else a ++ "/" ++ b

/-- The filesystem as seen by the dataset module.  `listing` returns the
archive entries of a directory as the explorer yields them after
`sortByName`; `gtRows`/`gtCols` are the dimensions of the matrix loaded
from the ground-truth file when it exists. -/
structure FS where
  dirExists : String → Bool
  fileExists : String → Bool
  listing : String → List String
  gtRows : ℕ := 0
  gtCols : ℕ := 0

/-- `build_list_files` from ParisLucoDataset.cpp: empty when the
directory does not exist, otherwise the name-sorted entries filtered by
extension. -/
def build_list_files (fs : FS) (dir : String) (ext : String) : List String :=
  if fs.dirExists dir then
    (fs.listing dir).filter fun f => f.endsWith ("." ++ ext)
  else []

/-- The member state of a `ParisLucoDataset` object at its (defaulted)
construction.  `sequence_ = ""`, `time_warp_scale_ = 1.0` and
`lidarPeriod_ = 0.1` (10 Hz) are modelled from the spec: the class header
carrying the member initializers is not in the visible sources. -/
structure LucoState where
  base_dir_ : String := ""
  sequence_ : String := ""
  seq_dir_ : String := ""
  time_warp_scale_ : ℚ := 1
  lidarPeriod_ : ℚ := 1/10
  lstLidarFiles_ : List String := []
  lst_timestamps_ : List ℚ := []
  initialized_ : Bool := false
  replay_started_ : Bool := false
  replay_begin_time_ : ℚ := 0
  replay_next_tim_index_ : ℕ := 0
deriving DecidableEq, Repr

deriving instance DecidableEq for Except

/-- The `std::generate` filling `lst_timestamps_`: starting from `t = 0`,
each entry is the accumulated `t += lidarPeriod_`. -/
def genTimestamps (period : ℚ) : ℕ → ℚ → List ℚ
  | 0, _ => []
  | n + 1, t => (t + period) :: genTimestamps period n (t + period)

/-- `ParisLucoDataset::initialize` (from ParisLucoDataset.cpp): require
the `params` block and `base_dir`; optionally read `sequence`; fail
unless the joined sequence directory exists; optionally read
`time_warp_scale`; list the `.ply` LIDAR files under `frames/`; fill the
timestamp list; load the ground-truth translations when the file exists
(its shape must be `n × 3`); mark the module initialized. -/
def ParisLucoDataset.initialize (s : LucoState) (fs : FS) (c : YamlCfg) :
    Except String LucoState :=
  match c.params with
  | none => Except.error "ENSURE_YAML_ENTRY_EXISTS(c, params)"
  | some cfg =>
    match ylookupStr cfg "base_dir" with
    | none => Except.error "YAML_LOAD_MEMBER_REQ(base_dir)"
    | some bd =>
      let seq := (ylookupStr cfg "sequence").getD s.sequence_
      let sd := pathJoin bd seq
      if fs.dirExists sd then
        let tws := (ylookupReal cfg "time_warp_scale").getD s.time_warp_scale_
        let files := build_list_files fs (pathJoin sd "frames") "ply"
        let ts := genTimestamps s.lidarPeriod_ files.length 0
        if fs.fileExists (pathJoin sd "gt_traj_lidar.txt")
            && (decide (fs.gtCols ≠ 3) || decide (fs.gtRows ≠ files.length)) then
          Except.error "ASSERT_EQUAL_(groundTruthTranslations_ dims)"
        else
          Except.ok { s with
            base_dir_ := bd, sequence_ := seq, seq_dir_ := sd,
            time_warp_scale_ := tws, lstLidarFiles_ := files,
            lst_timestamps_ := ts, initialized_ := true }
      else Except.error "ASSERT_DIRECTORY_EXISTS_(seq_dir_)"

/-- The publish loop of `spinOnce`: send observations while the next
timestep exists and its timestamp has been reached; returns the list of
published timestep indices and the new `replay_next_tim_index_`. -/
def publishLoop (ts : List ℚ) (t : ℚ) (idx : ℕ) : List ℕ × ℕ :=
  if _h : idx < ts.length ∧ ts.getD idx 0 ≤ t then
    let r := publishLoop ts t (idx + 1)
    (idx :: r.1, r.2)
  else ([], idx)
termination_by ts.length - idx

/-- `ParisLucoDataset::spinOnce` (from ParisLucoDataset.cpp): assert
initialization; latch the replay start time on the first call; compute
the warped replay time; publish every observation whose timestamp has
been reached, advancing `replay_next_tim_index_`. -/
def ParisLucoDataset.spinOnce (s : LucoState) (now : ℚ) :
    Except String (LucoState × List ℕ) :=
  if s.initialized_ then
    let beginT := if s.replay_started_ then s.replay_begin_time_ else now
    let t := (now - beginT) * s.time_warp_scale_
    let r := publishLoop s.lst_timestamps_ t s.replay_next_tim_index_
    let s2 := { s with
      replay_started_ := true, replay_begin_time_ := beginT,
      replay_next_tim_index_ := r.2 }
    Except.ok (s2, r.1)
  else Except.error "ASSERT_(initialized_)"

/-- Repeated `spinOnce` calls at the given clock instants, concatenating
the published timestep indices. -/
def ParisLucoDataset.spinMany (s : LucoState) :
    List ℚ → Except String (LucoState × List ℕ)
  | [] => Except.ok (s, [])
  | now :: rest =>
    match ParisLucoDataset.spinOnce s now with
    | Except.error e => Except.error e
    | Except.ok (s', pub) =>
      match ParisLucoDataset.spinMany s' rest with
      | Except.error e => Except.error e
      | Except.ok (sf, pubs) => Except.ok (sf, pub ++ pubs)

/-- Statement vocabulary for the decimation claim: a point sequence
truncated by the per-voxel cap (`0` caps nothing). -/
def capList (maxPts : ℕ) (l : List Pt) : List Pt :=
  if maxPts = 0 then l else l.take maxPts

/-- One step of the capped append (what one `VoxelData::insertPoint` call
does to the stored sequence). -/
def capPush (maxPts : ℕ) (l : List Pt) (p : Pt) : List Pt :=
  if maxPts ≠ 0 ∧ l.length = maxPts then l else l ++ [p]

/-- Well-formedness invariant of the dual voxel map: voxel keys are
unique; every cell holds at least one point; every cell's neighbor-link
table is exactly the neighborhood cube of its index, flagged `Some`
exactly at the populated indices. -/
def DVMap.WF (m : DVMap) : Prop :=
  (m.voxels_.map Prod.fst).Nodup ∧
  ∀ v cell, findCell m.voxels_ v = some cell →
    cell.points_ ≠ [] ∧
    cell.neighbors_ =
      (neighborhoodCube v m.cfg.nn_to_decim_ratio).map fun n =>
        (n, containsCell m.voxels_ n)

/-! ## Association-list lemmas -/

theorem findCell_eq_none_iff (vs : List (Index3D × VoxelData)) (i : Index3D) :
    findCell vs i = none ↔ i ∉ vs.map Prod.fst := by
  induction vs with
  | nil => simp [findCell]
  | cons e rest ih =>
      obtain ⟨k, vd⟩ := e
      by_cases h : k = i <;> simp [findCell, h, ih, Ne.symm]

theorem findCell_isSome_iff (vs : List (Index3D × VoxelData)) (i : Index3D) :
    (findCell vs i).isSome = true ↔ i ∈ vs.map Prod.fst := by
  rw [Option.isSome_iff_ne_none]
  constructor
  · intro h
    by_contra hmem
    exact h ((findCell_eq_none_iff vs i).2 hmem)
  · intro h hnone
    exact ((findCell_eq_none_iff vs i).1 hnone) h

theorem updateCell_keys (vs : List (Index3D × VoxelData)) (i : Index3D)
    (vd : VoxelData) : (updateCell vs i vd).map Prod.fst = vs.map Prod.fst := by
  induction vs with
  | nil => rfl
  | cons e rest ih =>
      obtain ⟨k, c⟩ := e
      by_cases h : k = i <;> simp [updateCell, h, ih]

theorem findCell_updateCell (vs : List (Index3D × VoxelData)) (i : Index3D)
    (vd : VoxelData) (j : Index3D) :
    findCell (updateCell vs i vd) j =
      if j = i then (findCell vs i).map fun _ => vd else findCell vs j := by
  induction vs with
  | nil => by_cases h : j = i <;> simp [updateCell, findCell, h]
  | cons e rest ih =>
      obtain ⟨k, c⟩ := e
      by_cases hk : k = i
      · subst hk
        by_cases hj : j = k
        · subst hj; simp [updateCell, findCell]
        · simp [updateCell, findCell, hj, Ne.symm hj, ih]
      · by_cases hkj : k = j
        · subst hkj; simp [updateCell, findCell, hk]
        · simp [updateCell, findCell, hk, hkj, ih]

theorem findCell_refreshNeighbors (v : Index3D) (r : ℤ)
    (vs : List (Index3D × VoxelData)) (j : Index3D) :
    findCell (refreshNeighbors v r vs) j =
      (findCell vs j).map fun c =>
        if cheb j v ≤ r then ⟨c.points_, setLink c.neighbors_ v⟩ else c := by
  induction vs with
  | nil => simp [refreshNeighbors, findCell]
  | cons e rest ih =>
      obtain ⟨k, c⟩ := e
      by_cases hk : k = j
      · subst hk
        by_cases hc : cheb k v ≤ r <;> simp [refreshNeighbors, findCell, hc]
      · by_cases hc : cheb k v ≤ r <;> simp [refreshNeighbors, findCell, hk, hc, ih]

theorem refreshNeighbors_keys (v : Index3D) (r : ℤ)
    (vs : List (Index3D × VoxelData)) :
    (refreshNeighbors v r vs).map Prod.fst = vs.map Prod.fst := by
  induction vs with
  | nil => rfl
  | cons e rest ih =>
      obtain ⟨k, c⟩ := e
      by_cases h : cheb k v ≤ r <;> simp [refreshNeighbors, h, ih]

theorem lookupLink_mem_keys {l : List (Index3D × Bool)} {n : Index3D}
    {b : Bool} (h : lookupLink l n = some b) : n ∈ l.map Prod.fst := by
  induction l with
  | nil => simp [lookupLink] at h
  | cons e rest ih =>
      obtain ⟨k, b'⟩ := e
      by_cases hk : k = n
      · subst hk; simp
      · simp only [lookupLink, hk, if_false] at h
        simpa using Or.inr (ih h)

theorem lookupLink_isSome_of_mem {l : List (Index3D × Bool)} {n : Index3D}
    (h : n ∈ l.map Prod.fst) : ∃ b, lookupLink l n = some b := by
  induction l with
  | nil => simp at h
  | cons e rest ih =>
      obtain ⟨k, b'⟩ := e
      by_cases hk : k = n
      · exact ⟨b', by simp [lookupLink, hk]⟩
      · simp only [List.map_cons, List.mem_cons] at h
        rcases h with h | h
        · exact absurd h.symm hk
        · obtain ⟨b, hb⟩ := ih h
          exact ⟨b, by simp [lookupLink, hk, hb]⟩

theorem lookupLink_graph (ks : List Index3D) (f : Index3D → Bool)
    (n : Index3D) {b : Bool}
    (h : lookupLink (ks.map fun k => (k, f k)) n = some b) : b = f n := by
  induction ks with
  | nil => simp [lookupLink] at h
  | cons k rest ih =>
      by_cases hk : k = n
      · subst hk
        simp [lookupLink] at h
        first
        | exact h
        | exact h.symm
      · simp only [List.map_cons, lookupLink, hk, if_false] at h
        exact ih h

theorem setLink_keys_of_mem {l : List (Index3D × Bool)} {k : Index3D}
    (h : k ∈ l.map Prod.fst) : (setLink l k).map Prod.fst = l.map Prod.fst := by
  induction l with
  | nil => simp at h
  | cons e rest ih =>
      obtain ⟨n, b⟩ := e
      by_cases hn : n = k
      · simp [setLink, hn]
      · simp only [List.map_cons, List.mem_cons] at h
        rcases h with h | h
        · exact absurd h.symm hn
        · simp [setLink, hn, ih h]

theorem lookupLink_setLink_self (l : List (Index3D × Bool)) (k : Index3D) :
    lookupLink (setLink l k) k = some true := by
  induction l with
  | nil => simp [setLink, lookupLink]
  | cons e rest ih =>
      obtain ⟨n, b⟩ := e
      by_cases hn : n = k <;> simp [setLink, hn, lookupLink, ih]

theorem lookupLink_setLink_ne (l : List (Index3D × Bool)) (k n : Index3D)
    (h : n ≠ k) : lookupLink (setLink l k) n = lookupLink l n := by
  induction l with
  | nil => simp [setLink, lookupLink, Ne.symm h]
  | cons e rest ih =>
      obtain ⟨m, b⟩ := e
      by_cases hm : m = k
      · subst hm; simp [setLink, lookupLink, Ne.symm h]
      · simp [setLink, hm, lookupLink, ih]

theorem setLink_graph (ks : List Index3D) (f : Index3D → Bool) (k : Index3D)
    (hnd : ks.Nodup) (hk : k ∈ ks) :
    setLink (ks.map fun n => (n, f n)) k =
      ks.map fun n => (n, decide (n = k) || f n) := by
  induction ks with
  | nil => simp at hk
  | cons a rest ih =>
      rcases List.nodup_cons.1 hnd with ⟨hamem, hnd'⟩
      by_cases ha : a = k
      · subst ha
        simp only [List.map_cons, setLink]
        simp
        intro n hn hna
        exact absurd (hna ▸ hn) hamem
      · have hk' : k ∈ rest := by
          rcases List.mem_cons.1 hk with h | h
          · exact absurd h.symm ha
          · exact h
        simp only [List.map_cons, setLink, ha, if_false, ih hnd' hk']
        simp [ha]

/-! ## Neighborhood cube lemmas -/

theorem mem_rangeOffsets {r d : ℤ} (hr : 0 ≤ r) :
    d ∈ rangeOffsets r ↔ -r ≤ d ∧ d ≤ r := by
  unfold rangeOffsets
  rw [List.mem_map]
  constructor
  · rintro ⟨k, hk, rfl⟩
    rw [List.mem_range] at hk
    omega
  · rintro ⟨h1, h2⟩
    refine ⟨(d + r).toNat, ?_, ?_⟩
    · rw [List.mem_range]; omega
    · omega

theorem rangeOffsets_nodup (r : ℤ) : (rangeOffsets r).Nodup := by
  unfold rangeOffsets
  refine List.Nodup.map ?_ (List.nodup_range _)
  intro a b hab
  simp only at hab
  omega

theorem cheb_comm (a b : Index3D) : cheb a b = cheb b a := by
  unfold cheb
  rw [abs_sub_comm a.ix, abs_sub_comm a.iy, abs_sub_comm a.iz]

theorem mem_neighborhoodCube {v n : Index3D} {r : ℤ} (hr : 0 ≤ r) :
    n ∈ neighborhoodCube v r ↔ cheb n v ≤ r := by
  obtain ⟨vx, vy, vz⟩ := v
  obtain ⟨nx, ny, nz⟩ := n
  unfold neighborhoodCube cheb
  simp only [List.mem_flatMap, List.mem_map, mem_rangeOffsets hr, max_le_iff,
    abs_le, Index3D.mk.injEq]
  constructor
  · rintro ⟨dx, hdx, dy, hdy, dz, hdz, rfl, rfl, rfl⟩
    omega
  · rintro ⟨⟨ha1, ha2⟩, ⟨hb1, hb2⟩, hc1, hc2⟩
    exact ⟨nx - vx, by omega, ny - vy, by omega, nz - vz, by omega,
      by omega, by omega, by omega⟩

theorem self_mem_neighborhoodCube {v : Index3D} {r : ℤ} (hr : 0 ≤ r) :
    v ∈ neighborhoodCube v r := by
  rw [mem_neighborhoodCube hr]
  unfold cheb
  simp [hr]

theorem neighborhoodCube_nodup (v : Index3D) (r : ℤ) :
    (neighborhoodCube v r).Nodup := by
  unfold neighborhoodCube
  rw [List.nodup_flatMap]
  constructor
  · intro dx _
    rw [List.nodup_flatMap]
    constructor
    · intro dy _
      refine List.Nodup.map ?_ (rangeOffsets_nodup r)
      intro a b hab
      simp only [Index3D.mk.injEq] at hab
      omega
    · refine (rangeOffsets_nodup r).imp ?_
      intro a b hab x hxa hxb
      obtain ⟨X, Y, Z⟩ := x
      simp only [List.mem_map, Index3D.mk.injEq] at hxa hxb
      obtain ⟨dz1, _, _, h1, _⟩ := hxa
      obtain ⟨dz2, _, _, h2, _⟩ := hxb
      exact hab (by omega)
  · refine (rangeOffsets_nodup r).imp ?_
    intro a b hab x hxa hxb
    obtain ⟨X, Y, Z⟩ := x
    simp only [List.mem_flatMap, List.mem_map, Index3D.mk.injEq] at hxa hxb
    obtain ⟨dy1, _, dz1, _, h1, _, _⟩ := hxa
    obtain ⟨dy2, _, dz2, _, h2, _, _⟩ := hxb
    exact hab (by omega)

theorem ratio_nonneg {c : Config} (hv : c.Valid) : 0 ≤ c.nn_to_decim_ratio := by
  obtain ⟨h1, h2⟩ := hv
  unfold Config.nn_to_decim_ratio
  have : (0 : ℚ) ≤ c.max_nn_radius / c.decimation_size :=
    div_nonneg (le_trans (le_of_lt h1) h2) (le_of_lt h1)
  exact le_trans (Int.ceil_nonneg this) (le_refl _)

/-! ## Insertion-step lemmas -/

theorem VoxelData.insertPoint_neighbors (mp : ℕ) (vd : VoxelData) (p : Pt) :
    (vd.insertPoint mp p).neighbors_ = vd.neighbors_ := by
  unfold VoxelData.insertPoint
  split <;> rfl

theorem VoxelData.insertPoint_points (mp : ℕ) (vd : VoxelData) (p : Pt) :
    (vd.insertPoint mp p).points_ = capPush mp vd.points_ p := by
  unfold VoxelData.insertPoint capPush
  split <;> rfl

theorem VoxelData.insertPoint_fresh (mp : ℕ) (L : List (Index3D × Bool))
    (p : Pt) : VoxelData.insertPoint mp ⟨[], L⟩ p = ⟨[p], L⟩ := by
  unfold VoxelData.insertPoint
  split
  · rename_i h
    exact absurd h.2.symm h.1
  · rfl

theorem insertPoint_cfg (m : DVMap) (p : Pt) : (m.insertPoint p).cfg = m.cfg := by
  unfold DVMap.insertPoint
  cases h : findCell m.voxels_ (m.cfg.pt2idx p) <;> simp [h]

theorem insertPoint_likOpts (m : DVMap) (p : Pt) :
    (m.insertPoint p).likelihoodOptions = m.likelihoodOptions := by
  unfold DVMap.insertPoint
  cases h : findCell m.voxels_ (m.cfg.pt2idx p) <;> simp [h]

theorem insertMany_cfg (m : DVMap) (ps : List Pt) :
    (m.insertMany ps).cfg = m.cfg := by
  induction ps generalizing m with
  | nil => rfl
  | cons p rest ih =>
      show ((m.insertPoint p).insertMany rest).cfg = m.cfg
      rw [ih, insertPoint_cfg]

theorem containsCell_updateCell (vs : List (Index3D × VoxelData)) (i : Index3D)
    (vd : VoxelData) (n : Index3D) :
    containsCell (updateCell vs i vd) n = containsCell vs n := by
  unfold containsCell
  rw [findCell_updateCell]
  by_cases h : n = i
  · simp [h]
  · simp [h]

theorem containsCell_refreshNeighbors (v : Index3D) (r : ℤ)
    (vs : List (Index3D × VoxelData)) (n : Index3D) :
    containsCell (refreshNeighbors v r vs) n = containsCell vs n := by
  unfold containsCell
  rw [findCell_refreshNeighbors]
  cases findCell vs n <;> simp

theorem findCell_cons_self (k : Index3D) (c : VoxelData)
    (l : List (Index3D × VoxelData)) : findCell ((k, c) :: l) k = some c := by
  simp [findCell]

theorem findCell_cons_ne {k j : Index3D} (h : ¬(k = j)) (c : VoxelData)
    (l : List (Index3D × VoxelData)) : findCell ((k, c) :: l) j = findCell l j := by
  simp [findCell, h]

theorem containsCell_cons_refresh (v : Index3D) (r : ℤ) (c : VoxelData)
    (vs : List (Index3D × VoxelData)) (n : Index3D) :
    containsCell ((v, c) :: refreshNeighbors v r vs) n =
      (decide (n = v) || containsCell vs n) := by
  by_cases h : n = v
  · subst h
    simp [containsCell, findCell]
  · have hv : ¬(v = n) := fun hh => h hh.symm
    unfold containsCell
    rw [findCell_cons_ne hv]
    have hrf := containsCell_refreshNeighbors v r vs n
    unfold containsCell at hrf
    rw [hrf]
    simp [h]

/-- The voxel container produced by one insertion, by cases on whether the
target cell exists. -/
theorem insertPoint_voxels_some {m : DVMap} {p : Pt} {cell : VoxelData}
    (h : findCell m.voxels_ (m.cfg.pt2idx p) = some cell) :
    (m.insertPoint p).voxels_ =
      updateCell m.voxels_ (m.cfg.pt2idx p)
        (cell.insertPoint m.cfg.max_points_per_voxel p) := by
  unfold DVMap.insertPoint
  simp [h]

theorem insertPoint_voxels_none {m : DVMap} {p : Pt}
    (h : findCell m.voxels_ (m.cfg.pt2idx p) = none) :
    (m.insertPoint p).voxels_ =
      (m.cfg.pt2idx p,
        VoxelData.insertPoint m.cfg.max_points_per_voxel
          ⟨[], (neighborhoodCube (m.cfg.pt2idx p) m.cfg.nn_to_decim_ratio).map
            fun n => (n, decide (n = m.cfg.pt2idx p) || containsCell m.voxels_ n)⟩ p) ::
      refreshNeighbors (m.cfg.pt2idx p) m.cfg.nn_to_decim_ratio m.voxels_ := by
  unfold DVMap.insertPoint
  simp [h]

/-! ## Preservation of the well-formedness invariant -/

theorem wf_empty (c : Config) : (DVMap.empty c).WF := by
  refine ⟨List.nodup_nil, ?_⟩
  intro v cell h
  simp [DVMap.empty, findCell] at h

theorem wf_insertPoint {m : DVMap} (p : Pt)
    (hr : 0 ≤ m.cfg.nn_to_decim_ratio) (hwf : m.WF) : (m.insertPoint p).WF := by
  obtain ⟨hnd, hcells⟩ := hwf
  cases hfc : findCell m.voxels_ (m.cfg.pt2idx p) with
  | some cell =>
      have hvox := insertPoint_voxels_some hfc
      constructor
      · rw [hvox, updateCell_keys]
        exact hnd
      · intro w cw hw
        rw [hvox, findCell_updateCell] at hw
        rw [insertPoint_cfg]
        by_cases hwv : w = m.cfg.pt2idx p
        · subst hwv
          rw [if_pos rfl, hfc] at hw
          simp only [Option.map_some', Option.some.injEq] at hw
          subst hw
          obtain ⟨hne, hnb⟩ := hcells _ cell hfc
          constructor
          · rw [VoxelData.insertPoint_points]
            unfold capPush
            split
            · exact hne
            · intro hnil
              have hlen := congrArg List.length hnil
              simp at hlen
          · rw [VoxelData.insertPoint_neighbors, hnb, hvox]
            apply List.map_congr_left
            intro n _
            rw [containsCell_updateCell]
        · rw [if_neg hwv] at hw
          obtain ⟨hne, hnb⟩ := hcells w cw hw
          refine ⟨hne, ?_⟩
          rw [hnb, hvox]
          apply List.map_congr_left
          intro n _
          rw [containsCell_updateCell]
  | none =>
      have hvox := insertPoint_voxels_none hfc
      have hnotmem : m.cfg.pt2idx p ∉ m.voxels_.map Prod.fst :=
        (findCell_eq_none_iff _ _).1 hfc
      have hcont : ∀ n, containsCell (m.insertPoint p).voxels_ n =
          (decide (n = m.cfg.pt2idx p) || containsCell m.voxels_ n) := by
        intro n
        rw [hvox]
        exact containsCell_cons_refresh _ _ _ m.voxels_ n
      constructor
      · rw [hvox]
        simp only [List.map_cons, refreshNeighbors_keys]
        exact List.nodup_cons.2 ⟨hnotmem, hnd⟩
      · intro w cw hw
        rw [insertPoint_cfg]
        rw [hvox] at hw
        by_cases hwv : w = m.cfg.pt2idx p
        · subst hwv
          rw [findCell_cons_self] at hw
          have hcw := (Option.some.inj hw).symm
          subst hcw
          rw [VoxelData.insertPoint_fresh]
          constructor
          · intro hnil
            simp at hnil
          · apply List.map_congr_left
            intro n _
            rw [hcont n]
        · have hvw : ¬(m.cfg.pt2idx p = w) := fun hh => hwv hh.symm
          rw [findCell_cons_ne hvw] at hw
          rw [findCell_refreshNeighbors] at hw
          cases hold : findCell m.voxels_ w with
          | none =>
              rw [hold] at hw
              exact absurd hw (by simp)
          | some c0 =>
              rw [hold] at hw
              simp only [Option.map_some', Option.some.injEq] at hw
              obtain ⟨hne0, hnb0⟩ := hcells w c0 hold
              by_cases hch : cheb w (m.cfg.pt2idx p) ≤ m.cfg.nn_to_decim_ratio
              · rw [if_pos hch] at hw
                have hcw := hw.symm
                subst hcw
                refine ⟨hne0, ?_⟩
                rw [show (⟨c0.points_, setLink c0.neighbors_ (m.cfg.pt2idx p)⟩ :
                    VoxelData).neighbors_ = setLink c0.neighbors_ (m.cfg.pt2idx p)
                  from rfl, hnb0]
                have hvmem : m.cfg.pt2idx p ∈
                    neighborhoodCube w m.cfg.nn_to_decim_ratio := by
                  rw [mem_neighborhoodCube hr, cheb_comm]
                  exact hch
                rw [setLink_graph _ _ _ (neighborhoodCube_nodup _ _) hvmem]
                apply List.map_congr_left
                intro n _
                rw [hcont n]
              · rw [if_neg hch] at hw
                have hcw := hw.symm
                subst hcw
                refine ⟨hne0, ?_⟩
                rw [hnb0]
                apply List.map_congr_left
                intro n hn
                rw [hcont n]
                have hnv : ¬(n = m.cfg.pt2idx p) := by
                  intro hh
                  subst hh
                  rw [mem_neighborhoodCube hr, cheb_comm] at hn
                  exact hch hn
                simp [hnv]

theorem wf_insertMany {m : DVMap} (ps : List Pt)
    (hr : 0 ≤ m.cfg.nn_to_decim_ratio) (hwf : m.WF) : (m.insertMany ps).WF := by
  induction ps generalizing m with
  | nil => exact hwf
  | cons p rest ih =>
      show ((m.insertPoint p).insertMany rest).WF
      have hr' : 0 ≤ (m.insertPoint p).cfg.nn_to_decim_ratio := by
        rw [insertPoint_cfg]; exact hr
      exact ih hr' (wf_insertPoint p hr hwf)

/-! ## Stored points as capped filters of the insertion sequence -/

theorem cellPoints_insertPoint (m : DVMap) (p : Pt) (w : Index3D) :
    (m.insertPoint p).cellPoints w =
      if w = m.cfg.pt2idx p then
        capPush m.cfg.max_points_per_voxel (m.cellPoints w) p
      else m.cellPoints w := by
  cases hfc : findCell m.voxels_ (m.cfg.pt2idx p) with
  | some cell =>
      unfold DVMap.cellPoints
      rw [insertPoint_voxels_some hfc, findCell_updateCell]
      by_cases hwv : w = m.cfg.pt2idx p
      · subst hwv
        rw [if_pos rfl, if_pos rfl, hfc]
        simp only [Option.map_some', Option.elim_some]
        rw [VoxelData.insertPoint_points]
      · rw [if_neg hwv, if_neg hwv]
  | none =>
      unfold DVMap.cellPoints
      rw [insertPoint_voxels_none hfc]
      by_cases hwv : w = m.cfg.pt2idx p
      · subst hwv
        rw [if_pos rfl, findCell_cons_self, hfc]
        simp only [Option.elim_some, Option.elim_none]
        rw [VoxelData.insertPoint_fresh]
        unfold capPush
        split
        · rename_i h
          exact absurd h.2.symm h.1
        · rfl
      · have hvw : ¬(m.cfg.pt2idx p = w) := fun hh => hwv hh.symm
        rw [if_neg hwv, findCell_cons_ne hvw, findCell_refreshNeighbors]
        cases findCell m.voxels_ w with
        | none => rfl
        | some c0 =>
            simp only [Option.map_some', Option.elim_some]
            split <;> rfl

theorem cellPoints_insertMany (m : DVMap) (ps : List Pt) (w : Index3D) :
    (m.insertMany ps).cellPoints w =
      (ps.filter fun p => m.cfg.pt2idx p = w).foldl
        (capPush m.cfg.max_points_per_voxel) (m.cellPoints w) := by
  induction ps generalizing m with
  | nil => rfl
  | cons p rest ih =>
      show ((m.insertPoint p).insertMany rest).cellPoints w = _
      rw [ih, insertPoint_cfg, cellPoints_insertPoint]
      by_cases h : m.cfg.pt2idx p = w
      · rw [List.filter_cons_of_pos (by simpa using h), if_pos h.symm,
          List.foldl_cons]
      · rw [List.filter_cons_of_neg (by simpa using h),
          if_neg (fun hh => h hh.symm)]

theorem foldl_capPush_zero (l acc : List Pt) :
    l.foldl (capPush 0) acc = acc ++ l := by
  induction l generalizing acc with
  | nil => simp
  | cons p rest ih =>
      rw [List.foldl_cons, show capPush 0 acc p = acc ++ [p] from by
        unfold capPush; simp]
      rw [ih]
      simp

theorem foldl_capPush_pos {mp : ℕ} (hmp : mp ≠ 0) (l : List Pt) :
    ∀ acc : List Pt, acc.length ≤ mp →
      l.foldl (capPush mp) acc = acc ++ l.take (mp - acc.length) := by
  induction l with
  | nil => intro acc _; simp
  | cons p rest ih =>
      intro acc hlen
      by_cases hfull : acc.length = mp
      · rw [List.foldl_cons, show capPush mp acc p = acc from by
          unfold capPush; simp [hmp, hfull]]
        rw [ih acc hlen, hfull]
        simp
      · have hlt : acc.length < mp := lt_of_le_of_ne hlen hfull
        rw [List.foldl_cons, show capPush mp acc p = acc ++ [p] from by
          unfold capPush; simp [hfull]]
        rw [ih (acc ++ [p]) (by simp [Nat.succ_le_of_lt hlt])]
        have hstep : mp - acc.length = (mp - (acc.length + 1)) + 1 := by omega
        rw [hstep, List.take_succ_cons]
        simp

/-! ## Derived facts about reachable maps -/

theorem graph_keys (ks : List Index3D) (f : Index3D → Bool) :
    (ks.map fun n => (n, f n)).map Prod.fst = ks := by
  induction ks with
  | nil => rfl
  | cons a rest ih => simp only [List.map_cons, ih]

theorem lookupLink_graph_mem {ks : List Index3D} {n : Index3D}
    (f : Index3D → Bool) (h : n ∈ ks) :
    lookupLink (ks.map fun k => (k, f k)) n = some (f n) := by
  induction ks with
  | nil => simp at h
  | cons a rest ih =>
      by_cases ha : a = n
      · subst ha
        simp [lookupLink]
      · rcases List.mem_cons.1 h with hh | hh
        · exact absurd hh.symm ha
        · simp only [List.map_cons, lookupLink, ha, if_false]
          exact ih hh

theorem containsCell_insertPoint_mono {m : DVMap} {n : Index3D} (p : Pt)
    (h : containsCell m.voxels_ n = true) :
    containsCell (m.insertPoint p).voxels_ n = true := by
  cases hfc : findCell m.voxels_ (m.cfg.pt2idx p) with
  | some cell =>
      rw [insertPoint_voxels_some hfc, containsCell_updateCell]
      exact h
  | none =>
      rw [insertPoint_voxels_none hfc, containsCell_cons_refresh]
      rw [h]
      simp

theorem containsCell_insertMany_mono {m : DVMap} {n : Index3D} (qs : List Pt)
    (h : containsCell m.voxels_ n = true) :
    containsCell (m.insertMany qs).voxels_ n = true := by
  induction qs generalizing m with
  | nil => exact h
  | cons q rest ih =>
      show containsCell ((m.insertPoint q).insertMany rest).voxels_ n = true
      exact ih (containsCell_insertPoint_mono q h)

theorem insertMany_append (m : DVMap) (ps qs : List Pt) :
    m.insertMany (ps ++ qs) = (m.insertMany ps).insertMany qs := by
  unfold DVMap.insertMany
  rw [List.foldl_append]

/-- C1: after any sequence of insertions into a freshly constructed map
with a valid configuration, every populated cell at index `v` has a
neighbor-link table whose key list is exactly the neighborhood cube of
`v` at radius `nn_to_decim_ratio` (`v` itself included), each entry
being `Some` exactly when a cell with at least one point exists at that
index; and under any further insertions the key set stays fixed and
`Some` entries stay `Some` — entries only flip from `None` to `Some`,
never disappear. -/
theorem C1_neighbor_links (cfg : Config) (ps : List Pt) (v : Index3D)
    (cell : VoxelData) (hv : cfg.Valid)
    (hfc : findCell ((DVMap.empty cfg).insertMany ps).voxels_ v = some cell) :
    cell.neighbors_.map Prod.fst = neighborhoodCube v cfg.nn_to_decim_ratio ∧
    v ∈ cell.neighbors_.map Prod.fst ∧
    (∀ n b, lookupLink cell.neighbors_ n = some b →
      (b = true ↔ ∃ c2, findCell ((DVMap.empty cfg).insertMany ps).voxels_ n =
        some c2 ∧ c2.points_ ≠ [])) ∧
    (∀ qs cell2,
      findCell ((DVMap.empty cfg).insertMany (ps ++ qs)).voxels_ v = some cell2 →
      cell2.neighbors_.map Prod.fst = cell.neighbors_.map Prod.fst ∧
      ∀ n, lookupLink cell.neighbors_ n = some true →
        lookupLink cell2.neighbors_ n = some true) := by
  have hr : 0 ≤ cfg.nn_to_decim_ratio := ratio_nonneg hv
  have hr0 : 0 ≤ (DVMap.empty cfg).cfg.nn_to_decim_ratio := hr
  have hwf := wf_insertMany ps hr0 (wf_empty cfg)
  have hcfg : ((DVMap.empty cfg).insertMany ps).cfg = cfg :=
    insertMany_cfg (DVMap.empty cfg) ps
  obtain ⟨hnd, hcells⟩ := hwf
  obtain ⟨hne, hnb⟩ := hcells v cell hfc
  rw [hcfg] at hnb
  have hkeys : cell.neighbors_.map Prod.fst =
      neighborhoodCube v cfg.nn_to_decim_ratio := by
    rw [hnb, graph_keys]
  refine ⟨hkeys, ?_, ?_, ?_⟩
  · rw [hkeys]
    exact self_mem_neighborhoodCube hr
  · intro n b hlk
    rw [hnb] at hlk
    have hb := lookupLink_graph _ _ _ hlk
    subst hb
    constructor
    · intro hc
      have hsome : (findCell ((DVMap.empty cfg).insertMany ps).voxels_ n).isSome :=
        hc
      cases hfn : findCell ((DVMap.empty cfg).insertMany ps).voxels_ n with
      | none =>
          rw [hfn] at hsome
          simp at hsome
      | some c2 =>
          obtain ⟨hne2, _⟩ := hcells n c2 hfn
          exact ⟨c2, rfl, hne2⟩
    · rintro ⟨c2, hfn, _⟩
      unfold containsCell
      rw [hfn]
      rfl
  · intro qs cell2 hfc2
    rw [insertMany_append] at hfc2
    have hr1 : 0 ≤ ((DVMap.empty cfg).insertMany ps).cfg.nn_to_decim_ratio := by
      rw [hcfg]; exact hr
    have hwf2 := wf_insertMany qs hr1 ⟨hnd, hcells⟩
    obtain ⟨hnd2, hcells2⟩ := hwf2
    obtain ⟨hne2, hnb2⟩ := hcells2 v cell2 hfc2
    rw [insertMany_cfg, hcfg] at hnb2
    constructor
    · rw [hnb2, graph_keys, hkeys]
    · intro n hlk
      rw [hnb] at hlk
      have hmem : n ∈ neighborhoodCube v cfg.nn_to_decim_ratio := by
        have hmk := lookupLink_mem_keys hlk
        rwa [graph_keys] at hmk
      rw [lookupLink_graph_mem _ hmem] at hlk
      have hcold : containsCell ((DVMap.empty cfg).insertMany ps).voxels_ n =
          true := Option.some.inj hlk
      have hcnew := containsCell_insertMany_mono qs hcold
      rw [hnb2, lookupLink_graph_mem _ hmem, hcnew]

/-- C1 witness: a concrete populated cell in a two-point map satisfies
the neighbor-link invariant. -/
theorem C1_neighbor_links_witness :
    ((Config.Valid ⟨1, 1, 1⟩) ∧
      findCell ((DVMap.empty ⟨1, 1, 1⟩).insertMany
        [⟨0, 0, 0⟩, ⟨1, 0, 0⟩]).voxels_ ⟨0, 0, 0⟩ =
        some ((findCell ((DVMap.empty ⟨1, 1, 1⟩).insertMany
          [⟨0, 0, 0⟩, ⟨1, 0, 0⟩]).voxels_ ⟨0, 0, 0⟩).getD ⟨[], []⟩)) ∧
    (((findCell ((DVMap.empty ⟨1, 1, 1⟩).insertMany
        [⟨0, 0, 0⟩, ⟨1, 0, 0⟩]).voxels_ ⟨0, 0, 0⟩).getD
          ⟨[], []⟩).neighbors_.map Prod.fst =
      neighborhoodCube ⟨0, 0, 0⟩ (Config.nn_to_decim_ratio ⟨1, 1, 1⟩) ∧
    (⟨0, 0, 0⟩ : Index3D) ∈ (((findCell ((DVMap.empty ⟨1, 1, 1⟩).insertMany
      [⟨0, 0, 0⟩, ⟨1, 0, 0⟩]).voxels_ ⟨0, 0, 0⟩).getD
        ⟨[], []⟩).neighbors_.map Prod.fst) ∧
    (∀ n b, lookupLink ((findCell ((DVMap.empty ⟨1, 1, 1⟩).insertMany
        [⟨0, 0, 0⟩, ⟨1, 0, 0⟩]).voxels_ ⟨0, 0, 0⟩).getD ⟨[], []⟩).neighbors_
        n = some b →
      (b = true ↔ ∃ c2, findCell ((DVMap.empty ⟨1, 1, 1⟩).insertMany
        [⟨0, 0, 0⟩, ⟨1, 0, 0⟩]).voxels_ n = some c2 ∧ c2.points_ ≠ [])) ∧
    (∀ qs cell2,
      findCell ((DVMap.empty ⟨1, 1, 1⟩).insertMany
        ([⟨0, 0, 0⟩, ⟨1, 0, 0⟩] ++ qs)).voxels_ ⟨0, 0, 0⟩ = some cell2 →
      cell2.neighbors_.map Prod.fst =
        ((findCell ((DVMap.empty ⟨1, 1, 1⟩).insertMany
          [⟨0, 0, 0⟩, ⟨1, 0, 0⟩]).voxels_ ⟨0, 0, 0⟩).getD
            ⟨[], []⟩).neighbors_.map Prod.fst ∧
      ∀ n, lookupLink ((findCell ((DVMap.empty ⟨1, 1, 1⟩).insertMany
          [⟨0, 0, 0⟩, ⟨1, 0, 0⟩]).voxels_ ⟨0, 0, 0⟩).getD ⟨[], []⟩).neighbors_
          n = some true →
        lookupLink cell2.neighbors_ n = some true)) :=
  ⟨⟨by with_unfolding_all decide, by with_unfolding_all decide⟩,
    C1_neighbor_links ⟨1, 1, 1⟩ [⟨0, 0, 0⟩, ⟨1, 0, 0⟩] ⟨0, 0, 0⟩ _
      (by with_unfolding_all decide) (by with_unfolding_all decide)⟩

/-- C4: for every voxel cell after any insertion sequence, the stored
points are exactly the first `max_points_per_voxel` points binned to that
voxel (all of them when the cap is `0`): a point arriving at a full cell
is dropped, never evicting an older point, and the count never exceeds a
nonzero cap. -/
theorem C4_max_points_per_voxel (cfg : Config) (ps : List Pt) (w : Index3D)
    (cell : VoxelData)
    (hfc : findCell ((DVMap.empty cfg).insertMany ps).voxels_ w = some cell) :
    cell.points_ =
      capList cfg.max_points_per_voxel (ps.filter fun p => cfg.pt2idx p = w) ∧
    (cfg.max_points_per_voxel ≠ 0 →
      cell.points_.length ≤ cfg.max_points_per_voxel) := by
  have h1 : ((DVMap.empty cfg).insertMany ps).cellPoints w = cell.points_ := by
    unfold DVMap.cellPoints
    rw [hfc]
    rfl
  have h2 := cellPoints_insertMany (DVMap.empty cfg) ps w
  rw [h1] at h2
  have hc : (DVMap.empty cfg).cfg = cfg := rfl
  rw [hc] at h2
  have hempty : (DVMap.empty cfg).cellPoints w = [] := rfl
  rw [hempty] at h2
  by_cases hmp : cfg.max_points_per_voxel = 0
  · rw [hmp, foldl_capPush_zero] at h2
    refine ⟨?_, fun h => absurd hmp h⟩
    rw [h2]
    unfold capList
    rw [hmp]
    simp
  · rw [foldl_capPush_pos hmp _ [] (by simp)] at h2
    constructor
    · rw [h2]
      unfold capList
      simp [hmp]
    · intro _
      rw [h2]
      simp only [List.nil_append, Nat.sub_zero]
      exact List.length_take_le _ _

/-- C4 witness: spec scenario 3 — cap 2, three points into one voxel. -/
theorem C4_max_points_per_voxel_witness :
    (findCell ((DVMap.empty ⟨1, 1, 2⟩).insertMany
      [⟨1/10, 0, 0⟩, ⟨2/10, 0, 0⟩, ⟨3/10, 0, 0⟩]).voxels_ ⟨0, 0, 0⟩ =
      some ((findCell ((DVMap.empty ⟨1, 1, 2⟩).insertMany
        [⟨1/10, 0, 0⟩, ⟨2/10, 0, 0⟩, ⟨3/10, 0, 0⟩]).voxels_
          ⟨0, 0, 0⟩).getD ⟨[], []⟩)) ∧
    (((findCell ((DVMap.empty ⟨1, 1, 2⟩).insertMany
        [⟨1/10, 0, 0⟩, ⟨2/10, 0, 0⟩, ⟨3/10, 0, 0⟩]).voxels_
          ⟨0, 0, 0⟩).getD ⟨[], []⟩).points_ =
      capList 2 ([⟨1/10, 0, 0⟩, ⟨2/10, 0, 0⟩, ⟨3/10, 0, 0⟩].filter
        fun p => Config.pt2idx ⟨1, 1, 2⟩ p = ⟨0, 0, 0⟩) ∧
    ((2 : ℕ) ≠ 0 →
      (((findCell ((DVMap.empty ⟨1, 1, 2⟩).insertMany
        [⟨1/10, 0, 0⟩, ⟨2/10, 0, 0⟩, ⟨3/10, 0, 0⟩]).voxels_
          ⟨0, 0, 0⟩).getD ⟨[], []⟩).points_.length ≤ 2))) :=
  ⟨by with_unfolding_all decide,
    C4_max_points_per_voxel ⟨1, 1, 2⟩
      [⟨1/10, 0, 0⟩, ⟨2/10, 0, 0⟩, ⟨3/10, 0, 0⟩] ⟨0, 0, 0⟩ _
      (by with_unfolding_all decide)⟩


/-! ## Nearest-neighbor query facts -/

theorem pickBest_eq_none {l : List (Pt × ℚ)} (h : pickBest l = none) :
    l = [] := by
  cases l with
  | nil => rfl
  | cons c rest =>
      exfalso
      unfold pickBest at h
      cases hr : pickBest rest with
      | none =>
          simp only [hr] at h
          exact Option.noConfusion h
      | some b =>
          simp only [hr] at h
          split at h <;> simp at h

theorem pickBest_mem {l : List (Pt × ℚ)} {b : Pt × ℚ}
    (h : pickBest l = some b) : b ∈ l := by
  induction l generalizing b with
  | nil => simp [pickBest] at h
  | cons c rest ih =>
      unfold pickBest at h
      cases hr : pickBest rest with
      | none =>
          simp only [hr, Option.some.injEq] at h
          subst h
          exact List.mem_cons_self _ _
      | some b2 =>
          simp only [hr] at h
          by_cases hlt : b2.2 < c.2
          · rw [if_pos hlt] at h
            have hb : b2 = b := Option.some.inj h
            rw [← hb]
            exact List.mem_cons_of_mem _ (ih hr)
          · rw [if_neg hlt] at h
            have hb : c = b := Option.some.inj h
            rw [← hb]
            exact List.mem_cons_self _ _

theorem pickBest_min {l : List (Pt × ℚ)} {b : Pt × ℚ}
    (h : pickBest l = some b) : ∀ c ∈ l, b.2 ≤ c.2 := by
  induction l generalizing b with
  | nil => simp [pickBest] at h
  | cons c rest ih =>
      intro x hx
      unfold pickBest at h
      cases hr : pickBest rest with
      | none =>
          simp only [hr, Option.some.injEq] at h
          have hnil := pickBest_eq_none hr
          subst hnil
          rcases List.mem_cons.1 hx with hh | hh
          · rw [← h, hh]
          · simp at hh
      | some b2 =>
          simp only [hr] at h
          by_cases hlt : b2.2 < c.2
          · rw [if_pos hlt] at h
            have hb : b2 = b := Option.some.inj h
            rcases List.mem_cons.1 hx with hh | hh
            · rw [← hb, hh]
              exact le_of_lt hlt
            · rw [← hb]
              exact ih hr x hh
          · rw [if_neg hlt] at h
            have hb : c = b := Option.some.inj h
            rcases List.mem_cons.1 hx with hh | hh
            · rw [← hb, hh]
            · rw [← hb]
              exact le_trans (le_of_not_lt hlt) (ih hr x hh)

theorem pickBest_isSome {l : List (Pt × ℚ)} (h : l ≠ []) :
    ∃ b, pickBest l = some b := by
  cases hp : pickBest l with
  | none => exact absurd (pickBest_eq_none hp) h
  | some b => exact ⟨b, rfl⟩

theorem nnCandidates_of_cell {m : DVMap} {q : Pt} {cellq : VoxelData}
    (hq : findCell m.voxels_ (m.cfg.pt2idx q) = some cellq) :
    m.nnCandidates q = cellq.neighbors_.flatMap fun e =>
      if e.2 then
        (match findCell m.voxels_ e.1 with
         | some nb => cellCandidates q nb
         | none => [])
      else [] := by
  unfold DVMap.nnCandidates
  simp only [hq]

theorem nnCandidates_of_no_cell {m : DVMap} {q : Pt}
    (hq : findCell m.voxels_ (m.cfg.pt2idx q) = none) :
    m.nnCandidates q =
      (neighborhoodCube (m.cfg.pt2idx q) m.cfg.nn_to_decim_ratio).flatMap fun n =>
        match findCell m.voxels_ n with
        | some nb => cellCandidates q nb
        | none => [] := by
  unfold DVMap.nnCandidates
  simp only [hq]

theorem nnCandidates_complete {m : DVMap} (hwf : m.WF)
    (hr : 0 ≤ m.cfg.nn_to_decim_ratio) {q y : Pt} {n : Index3D}
    {cell : VoxelData} (hfc : findCell m.voxels_ n = some cell)
    (hy : y ∈ cell.points_)
    (hcheb : cheb n (m.cfg.pt2idx q) ≤ m.cfg.nn_to_decim_ratio) :
    (y, distSq y q) ∈ m.nnCandidates q := by
  obtain ⟨hnd, hcells⟩ := hwf
  have hnmem : n ∈ neighborhoodCube (m.cfg.pt2idx q) m.cfg.nn_to_decim_ratio :=
    (mem_neighborhoodCube hr).2 hcheb
  cases hq : findCell m.voxels_ (m.cfg.pt2idx q) with
  | some cellq =>
      obtain ⟨_, hnb⟩ := hcells _ cellq hq
      rw [nnCandidates_of_cell hq, List.mem_flatMap]
      refine ⟨(n, containsCell m.voxels_ n), ?_, ?_⟩
      · rw [hnb]
        exact List.mem_map.2 ⟨n, hnmem, rfl⟩
      · have hcn : containsCell m.voxels_ n = true := by
          unfold containsCell
          rw [hfc]
          rfl
        simp only [hcn, if_true, hfc]
        exact List.mem_map.2 ⟨y, hy, rfl⟩
  | none =>
      rw [nnCandidates_of_no_cell hq, List.mem_flatMap]
      refine ⟨n, hnmem, ?_⟩
      simp only [hfc]
      exact List.mem_map.2 ⟨y, hy, rfl⟩

theorem nnCandidates_sound {m : DVMap} {q y : Pt} {d : ℚ}
    (h : (y, d) ∈ m.nnCandidates q) :
    d = distSq y q ∧
    ∃ n cell, findCell m.voxels_ n = some cell ∧ y ∈ cell.points_ := by
  cases hq : findCell m.voxels_ (m.cfg.pt2idx q) with
  | some cellq =>
      rw [nnCandidates_of_cell hq, List.mem_flatMap] at h
      obtain ⟨e, _, hmem⟩ := h
      by_cases he : e.2 = true
      · rw [if_pos he] at hmem
        cases hfn : findCell m.voxels_ e.1 with
        | none =>
            simp only [hfn] at hmem
            simp at hmem
        | some nb =>
            simp only [hfn] at hmem
            unfold cellCandidates at hmem
            rw [List.mem_map] at hmem
            obtain ⟨y2, hy2, heq⟩ := hmem
            rw [Prod.mk.injEq] at heq
            obtain ⟨rfl, rfl⟩ := heq
            exact ⟨rfl, e.1, nb, hfn, hy2⟩
      · rw [if_neg he] at hmem
        simp at hmem
  | none =>
      rw [nnCandidates_of_no_cell hq, List.mem_flatMap] at h
      obtain ⟨n, _, hmem⟩ := h
      cases hfn : findCell m.voxels_ n with
      | none =>
          simp only [hfn] at hmem
          simp at hmem
      | some nb =>
          simp only [hfn] at hmem
          unfold cellCandidates at hmem
          rw [List.mem_map] at hmem
          obtain ⟨y2, hy2, heq⟩ := hmem
          rw [Prod.mk.injEq] at heq
          obtain ⟨rfl, rfl⟩ := heq
          exact ⟨rfl, n, nb, hfn, hy2⟩

/-! ## Geometry of the rounding lattice -/

theorem round_mono_rat {x y : ℚ} (h : x ≤ y) : round x ≤ round y := by
  rw [round_eq, round_eq]
  exact Int.floor_le_floor (by linarith)

theorem coord2idx_diff_le {c : Config} (hv : c.Valid) {a b : ℚ}
    (h : |a - b| ≤ c.max_nn_radius) :
    |c.coord2idx a - c.coord2idx b| ≤ c.nn_to_decim_ratio := by
  obtain ⟨hds, hmr⟩ := hv
  rw [abs_le] at h
  obtain ⟨h1, h2⟩ := h
  have hceil : c.max_nn_radius / c.decimation_size ≤ (c.nn_to_decim_ratio : ℚ) :=
    Int.le_ceil _
  have key : ∀ u w : ℚ, u - w ≤ c.max_nn_radius →
      c.coord2idx u ≤ c.coord2idx w + c.nn_to_decim_ratio := by
    intro u w huw
    unfold Config.coord2idx Config.decimation_size_inv
    rw [mul_one_div, mul_one_div]
    have hq : u / c.decimation_size ≤
        w / c.decimation_size + (c.nn_to_decim_ratio : ℚ) := by
      have hd : u / c.decimation_size ≤
          (w + c.max_nn_radius) / c.decimation_size :=
        (div_le_div_iff_of_pos_right hds).2 (by linarith)
      rw [add_div] at hd
      linarith
    calc round (u / c.decimation_size)
        ≤ round (w / c.decimation_size + (c.nn_to_decim_ratio : ℚ)) :=
          round_mono_rat hq
      _ = round (w / c.decimation_size) + c.nn_to_decim_ratio :=
          round_add_int _ _
  have hu := key a b (by linarith)
  have hl := key b a (by linarith)
  rw [abs_le]
  omega

theorem distSq_nonneg (p q : Pt) : 0 ≤ distSq p q := by
  unfold distSq
  positivity

theorem distSq_self (p : Pt) : distSq p p = 0 := by
  unfold distSq
  ring

theorem cheb_self (a : Index3D) : cheb a a = 0 := by
  unfold cheb
  simp

theorem abs_le_of_sq_le {a mr : ℚ} (hmr : 0 ≤ mr) (h : a ^ 2 ≤ mr * mr) :
    |a| ≤ mr := by
  rcases abs_cases a with ⟨heq, _⟩ | ⟨heq, _⟩ <;> nlinarith

theorem pt2idx_cheb_le {c : Config} (hv : c.Valid) {y q : Pt}
    (h : distSq y q ≤ c.max_nn_radius_sqr) :
    cheb (c.pt2idx y) (c.pt2idx q) ≤ c.nn_to_decim_ratio := by
  have hmr : 0 ≤ c.max_nn_radius := le_trans (le_of_lt hv.1) hv.2
  unfold Config.max_nn_radius_sqr at h
  have hx : |y.x - q.x| ≤ c.max_nn_radius := by
    apply abs_le_of_sq_le hmr
    refine le_trans ?_ h
    unfold distSq
    nlinarith [sq_nonneg (y.y - q.y), sq_nonneg (y.z - q.z)]
  have hy2 : |y.y - q.y| ≤ c.max_nn_radius := by
    apply abs_le_of_sq_le hmr
    refine le_trans ?_ h
    unfold distSq
    nlinarith [sq_nonneg (y.x - q.x), sq_nonneg (y.z - q.z)]
  have hz : |y.z - q.z| ≤ c.max_nn_radius := by
    apply abs_le_of_sq_le hmr
    refine le_trans ?_ h
    unfold distSq
    nlinarith [sq_nonneg (y.x - q.x), sq_nonneg (y.y - q.y)]
  unfold cheb Config.pt2idx
  refine max_le ?_ (max_le ?_ ?_)
  · exact coord2idx_diff_le ⟨hv.1, hv.2⟩ hx
  · exact coord2idx_diff_le ⟨hv.1, hv.2⟩ hy2
  · exact coord2idx_diff_le ⟨hv.1, hv.2⟩ hz

theorem mem_foldl_capPush {mp : ℕ} {x : Pt} :
    ∀ (l acc : List Pt), x ∈ l.foldl (capPush mp) acc → x ∈ acc ∨ x ∈ l := by
  intro l
  induction l with
  | nil =>
      intro acc h
      exact Or.inl h
  | cons p rest ih =>
      intro acc h
      rcases ih (capPush mp acc p) h with hh | hh
      · unfold capPush at hh
        split at hh
        · exact Or.inl hh
        · rcases List.mem_append.1 hh with ha | hp
          · exact Or.inl ha
          · simp only [List.mem_singleton] at hp
            subst hp
            exact Or.inr (List.mem_cons_self _ _)
      · exact Or.inr (List.mem_cons_of_mem _ hh)

theorem mem_cellPoints_pt2idx {cfg : Config} {ps : List Pt} {n : Index3D}
    {y : Pt} (hy : y ∈ ((DVMap.empty cfg).insertMany ps).cellPoints n) :
    cfg.pt2idx y = n := by
  rw [cellPoints_insertMany] at hy
  rcases mem_foldl_capPush _ _ hy with hh | hh
  · exact absurd hh (by simp [DVMap.empty, DVMap.cellPoints, findCell])
  · rw [List.mem_filter] at hh
    exact of_decide_eq_true hh.2

theorem cellPoints_mem_findCell {m : DVMap} {n : Index3D} {y : Pt}
    (hy : y ∈ m.cellPoints n) :
    ∃ cell, findCell m.voxels_ n = some cell ∧ y ∈ cell.points_ := by
  unfold DVMap.cellPoints at hy
  cases hf : findCell m.voxels_ n with
  | none =>
      rw [hf] at hy
      simp at hy
  | some cell =>
      rw [hf] at hy
      exact ⟨cell, rfl, hy⟩

/-- C2: if the bounded NN query on any reachable map returns `(r, d²)`,
then `d² ≤ max_nn_radius²`, `d²` is the exact squared distance from the
query to the returned point, the returned point is stored in the map, and
no stored point anywhere in the map lies strictly closer than `d²`
(ties are kept by the earliest-seen candidate). -/
theorem C2_nn_find_nearest_correct (cfg : Config) (ps : List Pt) (q rpt : Pt)
    (dsq : ℚ) (hv : cfg.Valid)
    (hnn : ((DVMap.empty cfg).insertMany ps).nn_find_nearest q =
      some (rpt, dsq)) :
    dsq ≤ cfg.max_nn_radius_sqr ∧
    dsq = distSq rpt q ∧
    (∃ n cell,
      findCell ((DVMap.empty cfg).insertMany ps).voxels_ n = some cell ∧
      rpt ∈ cell.points_) ∧
    ∀ n cell y,
      findCell ((DVMap.empty cfg).insertMany ps).voxels_ n = some cell →
      y ∈ cell.points_ → ¬(distSq y q < dsq) := by
  have hcfg := insertMany_cfg (DVMap.empty cfg) ps
  have hr0 : 0 ≤ (DVMap.empty cfg).cfg.nn_to_decim_ratio := ratio_nonneg hv
  have hwf := wf_insertMany ps hr0 (wf_empty cfg)
  unfold DVMap.nn_find_nearest at hnn
  have hmem := pickBest_mem hnn
  rw [List.mem_filter] at hmem
  obtain ⟨hcand, hle⟩ := hmem
  have hle2 : dsq ≤ cfg.max_nn_radius_sqr := by
    have hp := of_decide_eq_true hle
    rwa [hcfg] at hp
  obtain ⟨hdeq, n0, cell0, hfc0, hy0⟩ := nnCandidates_sound hcand
  refine ⟨hle2, hdeq, ⟨n0, cell0, hfc0, hy0⟩, ?_⟩
  intro n cell y hfc hy hlt
  have hdy : distSq y q ≤ cfg.max_nn_radius_sqr :=
    le_trans (le_of_lt hlt) hle2
  have hyc : y ∈ ((DVMap.empty cfg).insertMany ps).cellPoints n := by
    unfold DVMap.cellPoints
    rw [hfc]
    exact hy
  have hidx : cfg.pt2idx y = n := mem_cellPoints_pt2idx hyc
  have hcheb : cheb n (((DVMap.empty cfg).insertMany ps).cfg.pt2idx q) ≤
      ((DVMap.empty cfg).insertMany ps).cfg.nn_to_decim_ratio := by
    rw [hcfg, ← hidx]
    exact pt2idx_cheb_le hv hdy
  have hr1 : 0 ≤ ((DVMap.empty cfg).insertMany ps).cfg.nn_to_decim_ratio := by
    rw [hcfg]
    exact ratio_nonneg hv
  have hcomp := nnCandidates_complete hwf hr1 hfc hy hcheb
  have hfmem : (y, distSq y q) ∈
      (((DVMap.empty cfg).insertMany ps).nnCandidates q).filter
        (fun c => c.2 ≤ ((DVMap.empty cfg).insertMany ps).cfg.max_nn_radius_sqr) := by
    rw [List.mem_filter]
    refine ⟨hcomp, decide_eq_true ?_⟩
    rw [hcfg]
    exact hdy
  have hminy := pickBest_min hnn _ hfmem
  exact absurd hlt (not_lt.2 hminy)

/-- C2 witness: spec scenario 1 — querying the origin in the two-point
map returns the stored point at squared distance 3/100. -/
theorem C2_nn_find_nearest_correct_witness :
    (Config.Valid ⟨1, 2, 0⟩ ∧
      ((DVMap.empty ⟨1, 2, 0⟩).insertMany
        [⟨1/10, 1/10, 1/10⟩, ⟨29/10, 0, 0⟩]).nn_find_nearest ⟨0, 0, 0⟩ =
        some (⟨1/10, 1/10, 1/10⟩, 3/100)) ∧
    ((3/100 : ℚ) ≤ Config.max_nn_radius_sqr ⟨1, 2, 0⟩ ∧
    (3/100 : ℚ) = distSq ⟨1/10, 1/10, 1/10⟩ ⟨0, 0, 0⟩ ∧
    (∃ n cell,
      findCell ((DVMap.empty ⟨1, 2, 0⟩).insertMany
        [⟨1/10, 1/10, 1/10⟩, ⟨29/10, 0, 0⟩]).voxels_ n = some cell ∧
      (⟨1/10, 1/10, 1/10⟩ : Pt) ∈ cell.points_) ∧
    ∀ n cell y,
      findCell ((DVMap.empty ⟨1, 2, 0⟩).insertMany
        [⟨1/10, 1/10, 1/10⟩, ⟨29/10, 0, 0⟩]).voxels_ n = some cell →
      y ∈ cell.points_ → ¬(distSq y ⟨0, 0, 0⟩ < 3/100)) :=
  ⟨⟨by with_unfolding_all decide, by with_unfolding_all decide⟩,
    C2_nn_find_nearest_correct ⟨1, 2, 0⟩ [⟨1/10, 1/10, 1/10⟩, ⟨29/10, 0, 0⟩]
      ⟨0, 0, 0⟩ ⟨1/10, 1/10, 1/10⟩ (3/100) (by with_unfolding_all decide)
      (by with_unfolding_all decide)⟩

/-- C3 counterexample: with `max_points_per_voxel = 1`, the second point
inserted into an occupied voxel is dropped, and a subsequent
`nn_find_nearest` at that point returns squared distance `9/100`, not
`0`: the claim fails for maps with a nonzero per-voxel cap. -/
theorem C3_counterexample_dropped_point :
    ((DVMap.empty ⟨1, 1, 1⟩).insertMany
      [⟨0, 0, 0⟩, ⟨3/10, 0, 0⟩]).nn_find_nearest ⟨3/10, 0, 0⟩ =
      some (⟨0, 0, 0⟩, 9/100) ∧ (9/100 : ℚ) ≠ 0 := by
  constructor
  · with_unfolding_all decide
  · with_unfolding_all decide

/-- C3 (amended): for every point `p` passed to `insert_point` that was
actually stored in the map, a subsequent `nn_find_nearest(p)` succeeds
and returns a point at squared distance exactly `0`, for any valid
configuration (any per-voxel cap included) and any insertion sequence;
in particular, with `max_points_per_voxel = 0` no point is ever dropped,
so every point passed to `insert_point` is stored. -/
theorem C3_inserted_point_found (cfg : Config) (ps : List Pt) (p : Pt)
    (hv : cfg.Valid) :
    (cfg.max_points_per_voxel = 0 → p ∈ ps →
      ∃ n cell,
        findCell ((DVMap.empty cfg).insertMany ps).voxels_ n = some cell ∧
        p ∈ cell.points_) ∧
    ((∃ n cell,
        findCell ((DVMap.empty cfg).insertMany ps).voxels_ n = some cell ∧
        p ∈ cell.points_) →
      ∃ rpt, ((DVMap.empty cfg).insertMany ps).nn_find_nearest p =
        some (rpt, 0)) := by
  have hcfg := insertMany_cfg (DVMap.empty cfg) ps
  have hr0 : 0 ≤ (DVMap.empty cfg).cfg.nn_to_decim_ratio := ratio_nonneg hv
  have hwf := wf_insertMany ps hr0 (wf_empty cfg)
  constructor
  · intro hmp hp
    have hyc : p ∈ ((DVMap.empty cfg).insertMany ps).cellPoints (cfg.pt2idx p) := by
      rw [cellPoints_insertMany]
      have hc : (DVMap.empty cfg).cfg = cfg := rfl
      rw [hc, hmp, foldl_capPush_zero]
      have hpm : p ∈ ps.filter (fun x => cfg.pt2idx x = cfg.pt2idx p) := by
        rw [List.mem_filter]
        exact ⟨hp, by simp⟩
      simpa [DVMap.empty, DVMap.cellPoints, findCell] using hpm
    obtain ⟨cell, hfc, hyp⟩ := cellPoints_mem_findCell hyc
    exact ⟨cfg.pt2idx p, cell, hfc, hyp⟩
  · rintro ⟨n, cell, hfc, hyp⟩
    have hyc : p ∈ ((DVMap.empty cfg).insertMany ps).cellPoints n := by
      unfold DVMap.cellPoints
      rw [hfc]
      exact hyp
    have hidx : cfg.pt2idx p = n := mem_cellPoints_pt2idx hyc
    subst hidx
    have hr1 : 0 ≤ ((DVMap.empty cfg).insertMany ps).cfg.nn_to_decim_ratio := by
      rw [hcfg]
      exact ratio_nonneg hv
    have hcheb : cheb (cfg.pt2idx p)
        (((DVMap.empty cfg).insertMany ps).cfg.pt2idx p) ≤
        ((DVMap.empty cfg).insertMany ps).cfg.nn_to_decim_ratio := by
      have hc0 : (DVMap.empty cfg).cfg = cfg := rfl
      rw [hcfg, hc0, cheb_self]
      exact ratio_nonneg hv
    have hcomp := nnCandidates_complete hwf hr1 hfc hyp hcheb
    rw [distSq_self] at hcomp
    have hfmem : (p, (0 : ℚ)) ∈
        (((DVMap.empty cfg).insertMany ps).nnCandidates p).filter
          (fun c => c.2 ≤ ((DVMap.empty cfg).insertMany ps).cfg.max_nn_radius_sqr) := by
      rw [List.mem_filter]
      refine ⟨hcomp, decide_eq_true ?_⟩
      rw [hcfg]
      exact mul_self_nonneg _
    obtain ⟨b, hb⟩ := pickBest_isSome (List.ne_nil_of_mem hfmem)
    have hbmin := pickBest_min hb _ hfmem
    have hbmem := pickBest_mem hb
    rw [List.mem_filter] at hbmem
    obtain ⟨hbc, _⟩ := hbmem
    obtain ⟨hd, _⟩ := nnCandidates_sound
      (show (b.1, b.2) ∈ ((DVMap.empty cfg).insertMany ps).nnCandidates p from hbc)
    have hb0 : b.2 = 0 := by
      have hge : 0 ≤ b.2 := by
        rw [hd]
        exact distSq_nonneg _ _
      exact le_antisymm hbmin hge
    refine ⟨b.1, ?_⟩
    unfold DVMap.nn_find_nearest
    have hbeq : b = (b.1, (0 : ℚ)) := by
      obtain ⟨b1, b2⟩ := b
      simp only at hb0
      rw [hb0]
    rw [hbeq] at hb
    exact hb

/-- C3 amended witness: the first inserted point of scenario 1 is stored
and found at distance `0`; its storedness is obtained from the cap-0
conjunct of the theorem itself. -/
theorem C3_inserted_point_found_witness :
    Config.Valid ⟨1, 2, 0⟩ ∧
    ∃ rpt, ((DVMap.empty ⟨1, 2, 0⟩).insertMany
      [⟨1/10, 1/10, 1/10⟩, ⟨29/10, 0, 0⟩]).nn_find_nearest
        ⟨1/10, 1/10, 1/10⟩ = some (rpt, 0) :=
  ⟨by with_unfolding_all decide,
    (C3_inserted_point_found ⟨1, 2, 0⟩ [⟨1/10, 1/10, 1/10⟩, ⟨29/10, 0, 0⟩]
      ⟨1/10, 1/10, 1/10⟩ (by with_unfolding_all decide)).2
      ((C3_inserted_point_found ⟨1, 2, 0⟩ [⟨1/10, 1/10, 1/10⟩, ⟨29/10, 0, 0⟩]
        ⟨1/10, 1/10, 1/10⟩ (by with_unfolding_all decide)).1 rfl (by simp))⟩

/-- C5: `setVoxelProperties` fails with `InvalidConfig` exactly when
`decimation_size ≤ 0` or `max_nn_radius < decimation_size`, leaving the
map completely untouched; otherwise it replaces the configuration and
clears all map contents (no rebinning of stored points), keeping the
other option blocks. -/
theorem C5_setVoxelProperties (m : DVMap) (ds mr : ℚ) (mp : ℕ) :
    ((ds ≤ 0 ∨ mr < ds) →
      m.setVoxelProperties ds mr mp = (m, some MapError.InvalidConfig)) ∧
    (¬(ds ≤ 0 ∨ mr < ds) →
      m.setVoxelProperties ds mr mp =
        ({ m with cfg := ⟨ds, mr, mp⟩, voxels_ := [] }, none) ∧
      Config.Valid ⟨ds, mr, mp⟩) := by
  constructor
  · intro h
    unfold DVMap.setVoxelProperties
    rw [if_pos h]
  · intro h
    push_neg at h
    refine ⟨?_, ?_⟩
    · unfold DVMap.setVoxelProperties
      rw [if_neg (by push_neg; exact h)]
    · exact ⟨h.1, h.2⟩

/-- C5 witness: a zero decimation size is rejected and the map state is
returned unchanged. -/
theorem C5_setVoxelProperties_witness :
    ((0 : ℚ) ≤ 0 ∨ (1 : ℚ) < 0) ∧
    (DVMap.empty ⟨1, 2, 0⟩).setVoxelProperties 0 1 0 =
      (DVMap.empty ⟨1, 2, 0⟩, some MapError.InvalidConfig) :=
  ⟨Or.inl le_rfl,
    (C5_setVoxelProperties (DVMap.empty ⟨1, 2, 0⟩) 0 1 0).1 (Or.inl le_rfl)⟩

/-! ## Likelihood loop as a decimated sum -/

theorem likLoop_eq_sum_aux (f : ℕ → ℚ) (n d : ℕ) (hd : 0 < d) :
    ∀ (m i : ℕ) (acc : ℚ), n - i ≤ m →
      likLoop f n d i acc =
        acc + ((List.range ((n - i + d - 1) / d)).map fun k =>
          f (i + k * d)).sum := by
  intro m
  induction m with
  | zero =>
      intro i acc hm
      have hterm : ¬(0 < d ∧ i < n) := by omega
      rw [likLoop, dif_neg hterm]
      have h0 : n - i = 0 := by omega
      rw [h0]
      have h1 : (0 + d - 1) / d = 0 := Nat.div_eq_of_lt (by omega)
      rw [h1]
      simp
  | succ m ih =>
      intro i acc hm
      by_cases hc : i < n
      · rw [likLoop, dif_pos ⟨hd, hc⟩]
        rw [ih (i + d) (acc + f i) (by omega)]
        have hK : (n - i + d - 1) / d = ((n - (i + d) + d - 1) / d) + 1 := by
          by_cases hxd : n - i ≤ d
          · have h1 : n - (i + d) = 0 := by omega
            rw [h1]
            have h2 : (0 + d - 1) / d = 0 := Nat.div_eq_of_lt (by omega)
            rw [h2]
            have h3 : (n - i + d - 1) / d = 1 :=
              Nat.div_eq_of_lt_le (by omega) (by omega)
            rw [h3]
          · have h4 : n - i + d - 1 = (n - (i + d) + d - 1) + d := by omega
            rw [h4, Nat.add_div_right _ hd]
        rw [hK, List.range_succ_eq_map]
        simp only [List.map_cons, List.map_map, List.sum_cons, Nat.zero_mul,
          Nat.add_zero]
        have hmap : (List.range ((n - (i + d) + d - 1) / d)).map
            ((fun k => f (i + k * d)) ∘ Nat.succ) =
            (List.range ((n - (i + d) + d - 1) / d)).map
              (fun k => f (i + d + k * d)) := by
          apply List.map_congr_left
          intro k _
          simp only [Function.comp]
          congr 1
          rw [Nat.succ_mul]
          ring
        rw [hmap]
        ring
      · rw [likLoop, dif_neg (by omega)]
        have h0 : n - i = 0 := by omega
        rw [h0]
        have h1 : (0 + d - 1) / d = 0 := Nat.div_eq_of_lt (by omega)
        rw [h1]
        simp

/-- C6: the observation-likelihood evaluation over a sensor point cloud
with pose `T` equals the unnormalized sum, over the decimated ray indices
`0, d, 2d, …` below the point count, of
`-min(d_sq_i, max_corr_distance^2) / (2 sigma_dist^2)`, where `d_sq_i` is
the squared distance found by the NN query for ray `i` transformed by `T`
(or `max_corr_distance^2` when no neighbor is found) — the per-ray term
`likTerm` is exactly that expression. -/
theorem C6_likelihood_decimated_sum (m : DVMap) (T : Pose) (pts : List Pt)
    (hd : 0 < m.likelihoodOptions.decimation) :
    m.likelihoodPointCloud3D T pts =
      ((List.range ((pts.length + m.likelihoodOptions.decimation - 1) /
          m.likelihoodOptions.decimation)).map fun k =>
        likTerm m T pts (m.likelihoodOptions.max_corr_distance ^ 2)
          (1 / (2 * m.likelihoodOptions.sigma_dist ^ 2))
          (k * m.likelihoodOptions.decimation)).sum := by
  unfold DVMap.likelihoodPointCloud3D
  rw [likLoop_eq_sum_aux _ _ _ hd pts.length 0 0 (by omega)]
  rw [zero_add]
  simp only [Nat.sub_zero, Nat.zero_add]

/-- C6 witness: a one-point map scored against a two-point scan with the
default options (decimation 10) sums exactly one decimated ray. -/
theorem C6_likelihood_decimated_sum_witness :
    0 < (DVMap.insertMany (DVMap.empty ⟨1, 2, 0⟩)
      [⟨0, 0, 0⟩]).likelihoodOptions.decimation ∧
    (DVMap.insertMany (DVMap.empty ⟨1, 2, 0⟩)
        [⟨0, 0, 0⟩]).likelihoodPointCloud3D {} [⟨0, 0, 0⟩, ⟨5, 5, 5⟩] =
      ((List.range ((([⟨0, 0, 0⟩, ⟨5, 5, 5⟩] : List Pt).length +
          (DVMap.insertMany (DVMap.empty ⟨1, 2, 0⟩)
            [⟨0, 0, 0⟩]).likelihoodOptions.decimation - 1) /
          (DVMap.insertMany (DVMap.empty ⟨1, 2, 0⟩)
            [⟨0, 0, 0⟩]).likelihoodOptions.decimation)).map fun k =>
        likTerm (DVMap.insertMany (DVMap.empty ⟨1, 2, 0⟩) [⟨0, 0, 0⟩]) {}
          [⟨0, 0, 0⟩, ⟨5, 5, 5⟩]
          ((DVMap.insertMany (DVMap.empty ⟨1, 2, 0⟩)
            [⟨0, 0, 0⟩]).likelihoodOptions.max_corr_distance ^ 2)
          (1 / (2 * (DVMap.insertMany (DVMap.empty ⟨1, 2, 0⟩)
            [⟨0, 0, 0⟩]).likelihoodOptions.sigma_dist ^ 2))
          (k * (DVMap.insertMany (DVMap.empty ⟨1, 2, 0⟩)
            [⟨0, 0, 0⟩]).likelihoodOptions.decimation)).sum :=
  ⟨by with_unfolding_all decide,
    C6_likelihood_decimated_sum (DVMap.insertMany (DVMap.empty ⟨1, 2, 0⟩)
      [⟨0, 0, 0⟩]) {} [⟨0, 0, 0⟩, ⟨5, 5, 5⟩] (by with_unfolding_all decide)⟩

/-! ## Serialization round trip -/

theorem parsePoints_roundtrip (pts : List Pt) (rest : List Tok) :
    parsePoints pts.length
      ((pts.flatMap fun p => [Tok.fl p.x, Tok.fl p.y, Tok.fl p.z]) ++ rest) =
      some (pts, rest) := by
  induction pts with
  | nil => rfl
  | cons p ps ih =>
      obtain ⟨x, y, z⟩ := p
      simp only [List.flatMap_cons, List.cons_append, List.append_assoc,
        List.length_cons, List.nil_append]
      rw [parsePoints, ih]
      rfl

theorem parseVoxels_roundtrip (vs : List (Index3D × VoxelData)) (rest : List Tok) :
    parseVoxels vs.length ((vs.flatMap serializeVoxel) ++ rest) =
      some (vs.map (fun e => (e.1, e.2.points_)), rest) := by
  induction vs with
  | nil => rfl
  | cons e vs ih =>
      obtain ⟨⟨ix, iy, iz⟩, cell⟩ := e
      simp only [List.flatMap_cons, serializeVoxel, List.cons_append,
        List.append_assoc, List.length_cons, List.nil_append]
      rw [parseVoxels, parsePoints_roundtrip cell.points_]
      simp only [ih, Option.map_some', List.map_cons]

theorem lookupRec_stripped (vs : List (Index3D × VoxelData)) (n : Index3D) :
    lookupRec (vs.map fun e => (e.1, e.2.points_)) n =
      (findCell vs n).map VoxelData.points_ := by
  induction vs with
  | nil => rfl
  | cons a rest ih =>
      obtain ⟨k, c⟩ := a
      by_cases hk : k = n <;> simp [lookupRec, findCell, hk, ih]

theorem findCell_of_mem_nodup {vs : List (Index3D × VoxelData)}
    (hnd : (vs.map Prod.fst).Nodup) {e : Index3D × VoxelData} (he : e ∈ vs) :
    findCell vs e.1 = some e.2 := by
  induction vs with
  | nil => simp at he
  | cons a rest ih =>
      rw [List.map_cons, List.nodup_cons] at hnd
      rcases List.mem_cons.1 he with hh | hh
      · subst hh
        obtain ⟨k, c⟩ := e
        simp [findCell]
      · have hkey : e.1 ∈ rest.map Prod.fst := List.mem_map.2 ⟨e, hh, rfl⟩
        have hne : ¬(a.1 = e.1) := fun hh2 => hnd.1 (hh2 ▸ hkey)
        obtain ⟨k, c⟩ := a
        simp only [findCell, hne, if_false]
        exact ih hnd.2 hh

theorem rebuildCells_of_wf {m : DVMap} (hwf : m.WF) :
    rebuildCells m.cfg.nn_to_decim_ratio
      (m.voxels_.map fun e => (e.1, e.2.points_)) = m.voxels_ := by
  obtain ⟨hnd, hcells⟩ := hwf
  unfold rebuildCells
  rw [List.map_map]
  conv_rhs => rw [← List.map_id m.voxels_]
  apply List.map_congr_left
  intro e he
  have hfc := findCell_of_mem_nodup hnd he
  obtain ⟨hne, hnb⟩ := hcells e.1 e.2 hfc
  simp only [Function.comp, id]
  have hlinks : (neighborhoodCube e.1 m.cfg.nn_to_decim_ratio).map
      (fun n => (n,
        (lookupRec (m.voxels_.map fun e2 => (e2.1, e2.2.points_)) n).isSome)) =
      e.2.neighbors_ := by
    rw [hnb]
    apply List.map_congr_left
    intro n _
    congr 1
    rw [lookupRec_stripped]
    unfold containsCell
    cases findCell m.voxels_ n <;> rfl
  rw [hlinks]

theorem deserialize_serialize (m : DVMap) :
    DVMap.deserialize (DVMap.serialize m) =
      some { m with
        voxels_ := rebuildCells m.cfg.nn_to_decim_ratio
          (m.voxels_.map fun e => (e.1, e.2.points_)) } := by
  obtain ⟨⟨ds, mr, mp⟩, vox, ⟨sg, mc, dec⟩, ⟨psz, smo, cr, cg, cb, cm, rc⟩⟩ := m
  have hp := parseVoxels_roundtrip vox []
  rw [List.append_nil] at hp
  simp only [DVMap.serialize, DVMap.deserialize, List.cons_append,
    List.nil_append, hp, if_true, eq_self_iff_true]

/-- C7: deserializing the serialization of any reachable map yields the
map back exactly — in particular the same voxel index set, the same
points per voxel in the same order, the same configuration and option
blocks, and hence identical answers to every query; neighbor links are
not stored in the byte stream but rebuilt on load. -/
theorem C7_serialization_roundtrip (cfg : Config) (ps : List Pt)
    (hv : cfg.Valid) :
    DVMap.deserialize (DVMap.serialize ((DVMap.empty cfg).insertMany ps)) =
      some ((DVMap.empty cfg).insertMany ps) := by
  rw [deserialize_serialize]
  have hr0 : 0 ≤ (DVMap.empty cfg).cfg.nn_to_decim_ratio := ratio_nonneg hv
  have hwf := wf_insertMany ps hr0 (wf_empty cfg)
  rw [rebuildCells_of_wf hwf]

/-- C7 witness: round trip on the concrete two-point map of scenario 1. -/
theorem C7_serialization_roundtrip_witness :
    Config.Valid ⟨1, 2, 0⟩ ∧
    DVMap.deserialize (DVMap.serialize ((DVMap.empty ⟨1, 2, 0⟩).insertMany
      [⟨1/10, 1/10, 1/10⟩, ⟨29/10, 0, 0⟩])) =
      some ((DVMap.empty ⟨1, 2, 0⟩).insertMany
        [⟨1/10, 1/10, 1/10⟩, ⟨29/10, 0, 0⟩]) :=
  ⟨by with_unfolding_all decide,
    C7_serialization_roundtrip ⟨1, 2, 0⟩ [⟨1/10, 1/10, 1/10⟩, ⟨29/10, 0, 0⟩]
      (by with_unfolding_all decide)⟩

/-! ## Module directory service -/

theorem findServiceAux_spec (castOk : ModuleHandle → Bool)
    (ns : String → Option ModuleHandle) :
    ∀ (N fuel start : ℕ), ns (serviceRequest (start + N)) = none →
      (∀ i, i < N → (ns (serviceRequest (start + i))).isSome) →
      N < fuel →
      findServiceAux castOk ns fuel start =
        ((List.range N).filterMap fun i =>
          ns (serviceRequest (start + i))).filter castOk := by
  intro N
  induction N with
  | zero =>
      intro fuel start hnull _ hfuel
      obtain ⟨f, rfl⟩ : ∃ f, fuel = f + 1 :=
        ⟨fuel - 1, by omega⟩
      rw [Nat.add_zero] at hnull
      simp [findServiceAux, hnull]
  | succ N ih =>
      intro fuel start hnull hsome hfuel
      obtain ⟨f, rfl⟩ : ∃ f, fuel = f + 1 := ⟨fuel - 1, by omega⟩
      have h0 := hsome 0 (Nat.succ_pos N)
      rw [Nat.add_zero] at h0
      obtain ⟨mh, hmh⟩ := Option.isSome_iff_exists.1 h0
      have hrec := ih f (start + 1)
        (by rw [show start + 1 + N = start + (N + 1) from by omega]; exact hnull)
        (fun i hi => by
          rw [show start + 1 + i = start + (i + 1) from by omega]
          exact hsome (i + 1) (by omega))
        (by omega)
      rw [findServiceAux, hmh, hrec]
      rw [List.range_succ_eq_map]
      simp only [List.filterMap_cons, Nat.add_zero, hmh, List.filterMap_map]
      have hcomp : ((fun i => ns (serviceRequest (start + i))) ∘ Nat.succ) =
          fun i => ns (serviceRequest (start + 1 + i)) := by
        funext i
        simp only [Function.comp]
        congr 2
        omega
      rw [hcomp, List.filter_cons]
      by_cases hca : castOk mh = true
      · simp [hca]
      · simp [hca]

/-- C8: the name-server hook of a freshly constructed `ExecutableBase` is
empty and `findService` then fails its assertion; with the hook set,
`findService` returns exactly the handles obtained by enumerating the
name server at requests `"[0", "[1", …` up to (excluding) the first null
handle, kept when the dynamic interface cast accepts them, in enumeration
order. -/
theorem C8_findService (castOk : ModuleHandle → Bool)
    (ns : String → Option ModuleHandle) (N fuel : ℕ)
    (hnull : ns (serviceRequest N) = none)
    (hsome : ∀ i, i < N → (ns (serviceRequest i)).isSome)
    (hfuel : N < fuel) :
    ExecutableBase.construct.nameServer_ = none ∧
    ExecutableBase.findService ExecutableBase.construct castOk fuel = none ∧
    ExecutableBase.findService ⟨some ns⟩ castOk fuel =
      some (((List.range N).filterMap fun i =>
        ns (serviceRequest i)).filter castOk) := by
  refine ⟨rfl, rfl, ?_⟩
  unfold ExecutableBase.findService
  simp only [Option.map_some']
  congr 1
  have h := findServiceAux_spec castOk ns N fuel 0
    (by rw [Nat.zero_add]; exact hnull)
    (fun i hi => by rw [Nat.zero_add]; exact hsome i hi)
    hfuel
  rw [h]
  simp only [Nat.zero_add]

/-- C8 witness: three modules behind the name server, one rejected by the
interface cast. -/
theorem C8_findService_witness :
    ((fun s => if s = "[0" then some (⟨0⟩ : ModuleHandle)
       else if s = "[1" then some ⟨1⟩
       else if s = "[2" then some ⟨2⟩ else none) (serviceRequest 3) = none ∧
      (∀ i, i < 3 → ((fun s => if s = "[0" then some (⟨0⟩ : ModuleHandle)
        else if s = "[1" then some ⟨1⟩
        else if s = "[2" then some ⟨2⟩ else none)
          (serviceRequest i)).isSome) ∧ 3 < 4) ∧
    (ExecutableBase.construct.nameServer_ = none ∧
    ExecutableBase.findService ExecutableBase.construct
      (fun mh => mh.id % 2 == 0) 4 = none ∧
    ExecutableBase.findService
      ⟨some (fun s => if s = "[0" then some (⟨0⟩ : ModuleHandle)
        else if s = "[1" then some ⟨1⟩
        else if s = "[2" then some ⟨2⟩ else none)⟩
      (fun mh => mh.id % 2 == 0) 4 =
      some (((List.range 3).filterMap fun i =>
        (fun s => if s = "[0" then some (⟨0⟩ : ModuleHandle)
          else if s = "[1" then some ⟨1⟩
          else if s = "[2" then some ⟨2⟩ else none)
            (serviceRequest i)).filter (fun mh => mh.id % 2 == 0))) :=
  ⟨⟨by decide, by decide, by decide⟩,
    C8_findService (fun mh => mh.id % 2 == 0) _ 3 4 (by decide)
      (by decide) (by decide)⟩

/-! ## Paris-Luco dataset module -/

/-- C9: the dataset module's `initialize` fails when the `params` block
is missing, when `base_dir` is missing, or when the joined directory
`base_dir/sequence` does not exist; otherwise (with a well-formed ground
truth, when present) it succeeds, with `sequence` defaulting to the
constructed state's value and `time_warp_scale` defaulting to `1.0`; and
it consumes exactly the keys `base_dir`, `sequence` and
`time_warp_scale` from the `params` block: two blocks agreeing on those
three keys produce identical results. -/
theorem C9_luco_initialize_keys (s0 : LucoState) (fs : FS) (c : YamlCfg) :
    (c.params = none →
      ∃ e, ParisLucoDataset.initialize s0 fs c = Except.error e) ∧
    (∀ cfg, c.params = some cfg → ylookupStr cfg "base_dir" = none →
      ∃ e, ParisLucoDataset.initialize s0 fs c = Except.error e) ∧
    (∀ cfg bd, c.params = some cfg → ylookupStr cfg "base_dir" = some bd →
      fs.dirExists
        (pathJoin bd ((ylookupStr cfg "sequence").getD s0.sequence_)) = false →
      ∃ e, ParisLucoDataset.initialize s0 fs c = Except.error e) ∧
    (∀ cfg bd, c.params = some cfg → ylookupStr cfg "base_dir" = some bd →
      fs.dirExists
        (pathJoin bd ((ylookupStr cfg "sequence").getD s0.sequence_)) = true →
      (fs.fileExists (pathJoin
          (pathJoin bd ((ylookupStr cfg "sequence").getD s0.sequence_))
          "gt_traj_lidar.txt")
        && (decide (fs.gtCols ≠ 3) || decide (fs.gtRows ≠
          (build_list_files fs (pathJoin
            (pathJoin bd ((ylookupStr cfg "sequence").getD s0.sequence_))
            "frames") "ply").length))) = false →
      ParisLucoDataset.initialize s0 fs c = Except.ok { s0 with
        base_dir_ := bd,
        sequence_ := (ylookupStr cfg "sequence").getD s0.sequence_,
        seq_dir_ :=
          pathJoin bd ((ylookupStr cfg "sequence").getD s0.sequence_),
        time_warp_scale_ :=
          (ylookupReal cfg "time_warp_scale").getD s0.time_warp_scale_,
        lstLidarFiles_ := build_list_files fs (pathJoin
          (pathJoin bd ((ylookupStr cfg "sequence").getD s0.sequence_))
          "frames") "ply",
        lst_timestamps_ := genTimestamps s0.lidarPeriod_
          (build_list_files fs (pathJoin
            (pathJoin bd ((ylookupStr cfg "sequence").getD s0.sequence_))
            "frames") "ply").length 0,
        initialized_ := true }) ∧
    ({} : LucoState).time_warp_scale_ = 1 ∧
    (∀ (c2 : YamlCfg) cfg cfg2, c.params = some cfg → c2.params = some cfg2 →
      ylookup cfg "base_dir" = ylookup cfg2 "base_dir" →
      ylookup cfg "sequence" = ylookup cfg2 "sequence" →
      ylookup cfg "time_warp_scale" = ylookup cfg2 "time_warp_scale" →
      ParisLucoDataset.initialize s0 fs c =
        ParisLucoDataset.initialize s0 fs c2) := by
  refine ⟨?_, ?_, ?_, ?_, rfl, ?_⟩
  · intro h
    unfold ParisLucoDataset.initialize
    rw [h]
    exact ⟨_, rfl⟩
  · intro cfg hcp hbd
    unfold ParisLucoDataset.initialize
    rw [hcp]
    simp only [hbd]
    exact ⟨_, rfl⟩
  · intro cfg bd hcp hbd hdir
    unfold ParisLucoDataset.initialize
    rw [hcp]
    simp only [hbd, hdir]
    exact ⟨_, rfl⟩
  · intro cfg bd hcp hbd hdir hgt
    unfold ParisLucoDataset.initialize
    rw [hcp]
    simp only [hbd, hdir, hgt]
    rfl
  · intro c2 cfg cfg2 hcp hcp2 h1 h2 h3
    unfold ParisLucoDataset.initialize ylookupStr ylookupReal
    simp only [hcp, hcp2]
    rw [h1, h2, h3]

/-- C9 witness: a configuration without a `params` block is rejected. -/
theorem C9_luco_initialize_keys_witness :
    ({ params := none } : YamlCfg).params = none ∧
    ∃ e, ParisLucoDataset.initialize {}
      ⟨fun _ => false, fun _ => false, fun _ => [], 0, 0⟩
      { params := none } = Except.error e :=
  ⟨rfl, (C9_luco_initialize_keys {}
    ⟨fun _ => false, fun _ => false, fun _ => [], 0, 0⟩
    { params := none }).1 rfl⟩

/-! ## Replay machinery -/

theorem genTimestamps_length (period : ℚ) :
    ∀ (n : ℕ) (t : ℚ), (genTimestamps period n t).length = n := by
  intro n
  induction n with
  | zero => intro t; rfl
  | succ n ih =>
      intro t
      simp only [genTimestamps, List.length_cons, ih]

theorem genTimestamps_getD (period : ℚ) :
    ∀ (n k : ℕ) (t : ℚ), k < n →
      (genTimestamps period n t).getD k 0 = t + ((k : ℚ) + 1) * period := by
  intro n
  induction n with
  | zero =>
      intro k t hk
      omega
  | succ n ih =>
      intro k t hk
      cases k with
      | zero =>
          simp only [genTimestamps, List.getD_cons_zero]
          push_cast
          ring
      | succ k =>
          have hk' : k < n := by omega
          simp only [genTimestamps]
          have : (genTimestamps period n (t + period)).getD k 0 =
              (t + period) + ((k : ℚ) + 1) * period := ih k (t + period) hk'
          simp only [List.getD_cons_succ, this]
          push_cast
          ring

theorem genTimestamps_chain (period : ℚ) (hper : 0 < period) :
    ∀ (n : ℕ) (t : ℚ), (genTimestamps period n t).Chain' (· < ·) := by
  intro n
  induction n with
  | zero => intro t; simp [genTimestamps]
  | succ n ih =>
      intro t
      cases n with
      | zero => simp [genTimestamps]
      | succ n2 =>
          rw [genTimestamps, genTimestamps, List.chain'_cons]
          constructor
          · linarith
          · rw [← genTimestamps]
            exact ih (t + period)

theorem publishLoop_spec (ts : List ℚ) (t : ℚ) :
    ∀ (fuel idx : ℕ), ts.length - idx ≤ fuel →
      (publishLoop ts t idx).1 =
        List.range' idx ((publishLoop ts t idx).2 - idx) ∧
      idx ≤ (publishLoop ts t idx).2 ∧
      (idx ≤ ts.length → (publishLoop ts t idx).2 ≤ ts.length) := by
  intro fuel
  induction fuel with
  | zero =>
      intro idx hf
      have hterm : ¬(idx < ts.length ∧ ts.getD idx 0 ≤ t) := by
        intro hc
        omega
      rw [publishLoop, dif_neg hterm]
      exact ⟨by simp, le_refl _, fun h => h⟩
  | succ fuel ih =>
      intro idx hf
      by_cases hc : idx < ts.length ∧ ts.getD idx 0 ≤ t
      · rw [publishLoop, dif_pos hc]
        obtain ⟨h1, h2, h3⟩ := ih (idx + 1) (by omega)
        have h3' := h3 (by omega)
        refine ⟨?_, by dsimp only; omega, ?_⟩
        · dsimp only
          rw [h1]
          have hn : (publishLoop ts t (idx + 1)).2 - idx =
              ((publishLoop ts t (idx + 1)).2 - (idx + 1)) + 1 := by omega
          rw [hn, List.range'_succ]
        · dsimp only
          omega
      · rw [publishLoop, dif_neg hc]
        exact ⟨by simp, le_refl _, fun h => h⟩

theorem spinOnce_ok {s : LucoState} (now : ℚ) (hinit : s.initialized_ = true) :
    ∃ s2 pub, ParisLucoDataset.spinOnce s now = Except.ok (s2, pub) ∧
      s2.lst_timestamps_ = s.lst_timestamps_ ∧
      s2.initialized_ = true ∧
      s2.replay_next_tim_index_ =
        (publishLoop s.lst_timestamps_
          ((now - (if s.replay_started_ = true then s.replay_begin_time_
            else now)) * s.time_warp_scale_) s.replay_next_tim_index_).2 ∧
      pub = (publishLoop s.lst_timestamps_
        ((now - (if s.replay_started_ = true then s.replay_begin_time_
          else now)) * s.time_warp_scale_) s.replay_next_tim_index_).1 := by
  unfold ParisLucoDataset.spinOnce
  rw [if_pos hinit]
  exact ⟨_, _, rfl, rfl, hinit, rfl, rfl⟩

theorem spinMany_spec (times : List ℚ) :
    ∀ s : LucoState, s.initialized_ = true →
      s.replay_next_tim_index_ ≤ s.lst_timestamps_.length →
      ∃ sf pubs, ParisLucoDataset.spinMany s times = Except.ok (sf, pubs) ∧
        sf.lst_timestamps_ = s.lst_timestamps_ ∧
        sf.initialized_ = true ∧
        s.replay_next_tim_index_ ≤ sf.replay_next_tim_index_ ∧
        sf.replay_next_tim_index_ ≤ s.lst_timestamps_.length ∧
        pubs.Pairwise (· < ·) ∧
        (∀ j ∈ pubs, s.replay_next_tim_index_ ≤ j ∧
          j < s.lst_timestamps_.length) := by
  induction times with
  | nil =>
      intro s hinit hidx
      exact ⟨s, [], rfl, rfl, hinit, le_refl _, hidx, List.Pairwise.nil,
        by simp⟩
  | cons now rest ih =>
      intro s hinit hidx
      obtain ⟨s2, pub, hok, hts2, hinit2, hidx2, hpub⟩ := spinOnce_ok now hinit
      obtain ⟨hpl1, hpl2, hpl3⟩ := publishLoop_spec s.lst_timestamps_
        ((now - (if s.replay_started_ = true then s.replay_begin_time_
          else now)) * s.time_warp_scale_)
        (s.lst_timestamps_.length - s.replay_next_tim_index_)
        s.replay_next_tim_index_ (le_refl _)
      have hpl3' := hpl3 hidx
      have hidx2le : s2.replay_next_tim_index_ ≤ s.lst_timestamps_.length := by
        rw [hidx2]
        exact hpl3'
      have hidx2ge : s.replay_next_tim_index_ ≤ s2.replay_next_tim_index_ := by
        rw [hidx2]
        exact hpl2
      obtain ⟨sf, pubs, hmany, htsf, hinitf, hgef, hlef, hpwf, hmemf⟩ :=
        ih s2 hinit2 (by rw [hts2]; exact hidx2le)
      refine ⟨sf, pub ++ pubs, ?_, ?_, hinitf, ?_, ?_, ?_, ?_⟩
      · unfold ParisLucoDataset.spinMany
        simp only [hok, hmany]
      · rw [htsf, hts2]
      · omega
      · rw [← hts2]
        exact hlef
      · rw [List.pairwise_append]
        refine ⟨?_, hpwf, ?_⟩
        · rw [hpub, hpl1]
          exact List.pairwise_lt_range' _ _
        · intro a ha b hb
          rw [hpub, hpl1, List.mem_range'_1] at ha
          have hge := (hmemf b hb).1
          rw [hidx2] at hge
          omega
      · intro j hj
        rcases List.mem_append.1 hj with hh | hh
        · rw [hpub, hpl1, List.mem_range'_1] at hh
          constructor
          · omega
          · omega
        · obtain ⟨hg, hl⟩ := hmemf j hh
          rw [hts2] at hl
          exact ⟨le_trans hidx2ge hg, hl⟩

theorem initialize_ok_inv {s0 : LucoState} {fs : FS} {c : YamlCfg}
    {s1 : LucoState}
    (h : ParisLucoDataset.initialize s0 fs c = Except.ok s1) :
    s1.initialized_ = true ∧
    s1.replay_next_tim_index_ = s0.replay_next_tim_index_ ∧
    s1.lidarPeriod_ = s0.lidarPeriod_ ∧
    s1.lst_timestamps_ =
      genTimestamps s0.lidarPeriod_ s1.lstLidarFiles_.length 0 := by
  unfold ParisLucoDataset.initialize at h
  cases hcp : c.params with
  | none =>
      rw [hcp] at h
      exact Except.noConfusion h
  | some cfg =>
      simp only [hcp] at h
      cases hbd : ylookupStr cfg "base_dir" with
      | none =>
          simp only [hbd] at h
          exact Except.noConfusion h
      | some bd =>
          simp only [hbd] at h
          split at h
          · split at h
            · exact Except.noConfusion h
            · injection h with h2
              subst h2
              exact ⟨rfl, rfl, rfl, rfl⟩
          · exact Except.noConfusion h

/-- C10: after a successful `initialize` from the constructed state, the
timestamp list has exactly one entry per discovered LIDAR file, with
entry `k` equal to `(k+1) · lidarPeriod_` — hence strictly increasing;
and across any sequence of `spinOnce` calls the published timestep
indices are globally strictly increasing (each observation published at
most once, in increasing order) while `replay_next_tim_index_` never
advances past the end of the list. -/
theorem C10_luco_replay (s0 : LucoState) (fs : FS) (c : YamlCfg)
    (s1 : LucoState) (hper : 0 < s0.lidarPeriod_)
    (hidx0 : s0.replay_next_tim_index_ = 0)
    (hinit : ParisLucoDataset.initialize s0 fs c = Except.ok s1) :
    s1.lst_timestamps_.length = s1.lstLidarFiles_.length ∧
    (∀ k, k < s1.lst_timestamps_.length →
      s1.lst_timestamps_.getD k 0 = ((k : ℚ) + 1) * s0.lidarPeriod_) ∧
    s1.lst_timestamps_.Chain' (· < ·) ∧
    (∀ times : List ℚ, ∃ sf pubs,
      ParisLucoDataset.spinMany s1 times = Except.ok (sf, pubs) ∧
      pubs.Pairwise (· < ·) ∧
      (∀ j ∈ pubs, j < s1.lst_timestamps_.length) ∧
      sf.replay_next_tim_index_ ≤ s1.lst_timestamps_.length) := by
  obtain ⟨hin1, hidx1, hper1, hts⟩ := initialize_ok_inv hinit
  refine ⟨?_, ?_, ?_, ?_⟩
  · rw [hts, genTimestamps_length]
  · intro k hk
    rw [hts] at hk ⊢
    rw [genTimestamps_length] at hk
    rw [genTimestamps_getD _ _ _ _ hk, zero_add]
  · rw [hts]
    exact genTimestamps_chain _ hper _ _
  · intro times
    have hstart : s1.replay_next_tim_index_ ≤ s1.lst_timestamps_.length := by
      rw [hidx1, hidx0]
      exact Nat.zero_le _
    obtain ⟨sf, pubs, hok, _, _, _, hlef, hpwf, hmemf⟩ :=
      spinMany_spec times s1 hin1 hstart
    exact ⟨sf, pubs, hok, hpwf, fun j hj => (hmemf j hj).2, hlef⟩

/-- C10 witness: a two-scan dataset replayed from a fresh module state. -/
theorem C10_luco_replay_witness :
    ((0 : ℚ) < ({} : LucoState).lidarPeriod_ ∧
      ({} : LucoState).replay_next_tim_index_ = 0 ∧
      ParisLucoDataset.initialize {}
        ⟨fun _ => true, fun _ => false, fun _ => ["000.ply", "001.ply"], 0, 0⟩
        { params := some [("base_dir", YVal.str "d")] } =
        Except.ok ((( ParisLucoDataset.initialize {}
          ⟨fun _ => true, fun _ => false, fun _ => ["000.ply", "001.ply"], 0, 0⟩
          { params := some [("base_dir", YVal.str "d")] }).toOption).getD {})) ∧
    ((((( ParisLucoDataset.initialize {}
        ⟨fun _ => true, fun _ => false, fun _ => ["000.ply", "001.ply"], 0, 0⟩
        { params := some [("base_dir", YVal.str "d")] }).toOption).getD
          {}).lst_timestamps_.length =
      (((( ParisLucoDataset.initialize {}
        ⟨fun _ => true, fun _ => false, fun _ => ["000.ply", "001.ply"], 0, 0⟩
        { params := some [("base_dir", YVal.str "d")] }).toOption).getD
          {}).lstLidarFiles_.length)) ∧
    (∀ k, k < (((( ParisLucoDataset.initialize {}
        ⟨fun _ => true, fun _ => false, fun _ => ["000.ply", "001.ply"], 0, 0⟩
        { params := some [("base_dir", YVal.str "d")] }).toOption).getD
          {}).lst_timestamps_.length) →
      (((( ParisLucoDataset.initialize {}
        ⟨fun _ => true, fun _ => false, fun _ => ["000.ply", "001.ply"], 0, 0⟩
        { params := some [("base_dir", YVal.str "d")] }).toOption).getD
          {}).lst_timestamps_.getD k 0) =
        ((k : ℚ) + 1) * ({} : LucoState).lidarPeriod_) ∧
    ((((( ParisLucoDataset.initialize {}
        ⟨fun _ => true, fun _ => false, fun _ => ["000.ply", "001.ply"], 0, 0⟩
        { params := some [("base_dir", YVal.str "d")] }).toOption).getD
          {}).lst_timestamps_).Chain' (· < ·)) ∧
    (∀ times : List ℚ, ∃ sf pubs,
      ParisLucoDataset.spinMany ((( ParisLucoDataset.initialize {}
        ⟨fun _ => true, fun _ => false, fun _ => ["000.ply", "001.ply"], 0, 0⟩
        { params := some [("base_dir", YVal.str "d")] }).toOption).getD {})
        times = Except.ok (sf, pubs) ∧
      pubs.Pairwise (· < ·) ∧
      (∀ j ∈ pubs, j < (((( ParisLucoDataset.initialize {}
        ⟨fun _ => true, fun _ => false, fun _ => ["000.ply", "001.ply"], 0, 0⟩
        { params := some [("base_dir", YVal.str "d")] }).toOption).getD
          {}).lst_timestamps_.length)) ∧
      sf.replay_next_tim_index_ ≤ (((( ParisLucoDataset.initialize {}
        ⟨fun _ => true, fun _ => false, fun _ => ["000.ply", "001.ply"], 0, 0⟩
        { params := some [("base_dir", YVal.str "d")] }).toOption).getD
          {}).lst_timestamps_.length))) :=
  ⟨⟨by with_unfolding_all decide, rfl, by with_unfolding_all decide⟩,
    C10_luco_replay {}
      ⟨fun _ => true, fun _ => false, fun _ => ["000.ply", "001.ply"], 0, 0⟩
      { params := some [("base_dir", YVal.str "d")] } _
      (by with_unfolding_all decide) rfl (by with_unfolding_all decide)⟩

end Mola
